import Mathlib

/-!
# Koyotecoin PSKT engine — shallow embedding

Shallow embedding of the Partially Signed Koyotecoin Transaction (PSKT)
engine of the koyotecoin repository, translated from
`src/src/qt/psktoperationsdialog.cpp` (which concatenates the GUI dialog,
`pskt.cpp`, `node/pskt.cpp` and `node/pskt.h`) and
`src/src/rpc/rawtransaction.cpp`.

Modelling conventions:
* public keys, key ids, hash digests and extended public keys are drawn from
  an abstract countable universe, modelled as `Nat`; byte vectors
  (signatures, scripts, key-origin data, unknown-record keys and values) are
  modelled as `List Nat`;
* a `std::map` or `std::set` is modelled as an association list / list whose
  insertion skips keys (elements) that are already present, exactly as
  `std::map::insert` / `std::set::insert` do — first writer wins;
* machine integers: `CAmount` (int64_t) is modelled as `Int` (no arithmetic
  in the engine can overflow 64 bits once the code's own `MoneyRange` checks
  pass), index arithmetic as `Nat`;
* a cryptographic hash of a value (txid) is modelled as an injective
  encoding into `Nat` of exactly the fields that feed the real hash.
-/

/-! ## Association-list maps (std::map) and sets (std::set) -/

/-- First value bound to `k`, as `std::map::find`. -/
def alookup {α β : Type} [DecidableEq α] (k : α) : List (α × β) → Option β
  | [] => none
  | p :: ps => if p.1 = k then some p.2 else alookup k ps

/-- One `std::map::insert`: a key that is already present is left alone. -/
def insertKV {α β : Type} [DecidableEq α] (m : List (α × β)) (k : α) (v : β) :
    List (α × β) :=
  if (alookup k m).isSome then m else m ++ [(k, v)]

/-- Range insert `m.insert(l.begin(), l.end())`: first writer wins. -/
def mapInsertAll {α β : Type} [DecidableEq α] (m : List (α × β)) (l : List (α × β)) :
    List (α × β) :=
  l.foldl (fun acc p => insertKV acc p.1 p.2) m

/-- One `std::set::insert`. -/
def setInsert {α : Type} [DecidableEq α] (s : List α) (a : α) : List α :=
  if a ∈ s then s else s ++ [a]

/-- Range insert on a `std::set`: set union keeping the left elements. -/
def setUnion {α : Type} [DecidableEq α] (s t : List α) : List α :=
  t.foldl setInsert s

/-- Replace the value bound to `k` (used for `m_xpubs[k].insert(...)`). -/
def updateVal {α β : Type} [DecidableEq α] (m : List (α × β)) (k : α) (f : β → β) :
    List (α × β) :=
  m.map (fun p => if p.1 = k then (p.1, f p.2) else p)

/-! ## Transaction primitives

Transaction primitives (`COutPoint`, `CTxIn`, `CTxOut`,
`CMutableTransaction`) are consumed by the PSKT engine as opaque values with
known encodings (spec §1); their container shape below carries exactly the
fields the engine reads. -/

/-- `COutPoint`: reference to a predecessor transaction output. The default
constructor sets a null hash and `n = 0xffffffff`. -/
structure COutPoint where
  hash : Nat
  n : Nat
deriving DecidableEq, Repr

instance : Inhabited COutPoint := ⟨⟨0, 4294967295⟩⟩

/-- `CTxIn`. A transaction input; `scriptWitness` lives in `CTxIn` in this
codebase (`mtx.vin[i].scriptWitness` in `node/pskt.cpp`). -/
structure CTxIn where
  prevout : COutPoint
  scriptSig : List Nat
  scriptWitness : List (List Nat)
  nSequence : Nat
deriving DecidableEq, Repr

instance : Inhabited CTxIn := ⟨⟨default, [], [], 4294967295⟩⟩

/-- `CTxOut`; `IsNull()` is `nValue == -1`, the default-constructed state. -/
structure CTxOut where
  nValue : Int
  scriptPubKey : List Nat
deriving DecidableEq, Repr

instance : Inhabited CTxOut := ⟨⟨-1, []⟩⟩

/-- `CTxOut::IsNull`. -/
def CTxOut.IsNull (o : CTxOut) : Bool := o.nValue = -1

/-- `CMutableTransaction`. -/
structure CMutableTransaction where
  nVersion : Int
  vin : List CTxIn
  vout : List CTxOut
  nLockTime : Nat
deriving DecidableEq, Repr

instance : Inhabited CMutableTransaction := ⟨⟨2, [], [], 0⟩⟩

/-- Cantor pairing, used to build injective `Nat` encodings. -/
def natPair (a b : Nat) : Nat := (a + b) * (a + b + 1) / 2 + b

/-- Injective encoding of an integer into `Nat`. -/
def encInt : Int → Nat
  | Int.ofNat n => 2 * n
  | Int.negSucc n => 2 * n + 1

/-- Injective encoding of a list, given an encoding of its elements. -/
def encList {α : Type} (f : α → Nat) : List α → Nat
  | [] => 0
  | x :: xs => natPair (f x) (encList f xs) + 1

/-- Encoding of the txid-relevant part of one input (witness excluded). -/
def encTxInNoWitness (i : CTxIn) : Nat :=
  natPair i.prevout.hash (natPair i.prevout.n (natPair (encList id i.scriptSig) i.nSequence))

/-- Encoding of one output. -/
def encTxOut (o : CTxOut) : Nat :=
  natPair (encInt o.nValue) (encList id o.scriptPubKey)

/-- `CMutableTransaction::GetHash` / `CTransaction::GetHash`: the txid, the
double-SHA256 of the transaction serialized without witness data. The hash is
modelled as an injective encoding of exactly the fields that feed it:
version, each input's (prevout, scriptSig, nSequence), the outputs, and the
lock time. -/
def CMutableTransaction.GetHash (tx : CMutableTransaction) : Nat :=
  natPair (encInt tx.nVersion)
    (natPair (encList encTxInNoWitness tx.vin)
      (natPair (encList encTxOut tx.vout) tx.nLockTime))

/-! ## PSKT data model (`pskt.h` shapes as used by `pskt.cpp`) -/

/-- One proprietary record: (identifier bytes, subtype, key bytes, value
bytes). -/
structure PSKTProprietary where
  identifier : List Nat
  subtype : Nat
  key : List Nat
  value : List Nat
deriving DecidableEq, Repr

/-- `PSKTInput`: the per-input record of a PSKT.

`partial_sigs` is `std::map<CKeyID, SigPair>` with `SigPair =
pair<CPubKey, signature bytes>`; the preimage maps, `hd_keypaths`
(pubkey ↦ key-origin), `unknown` and the Taproot maps are `std::map`s;
`m_tap_internal_key` (x-only pubkey) and `m_tap_merkle_root` (uint256) use
`0` as their `IsNull()` state; `final_script_witness.IsNull()` is an empty
stack. -/
structure PSKTInput where
  non_witness_utxo : Option CMutableTransaction := none
  witness_utxo : CTxOut := default
  partial_sigs : List (Nat × (Nat × List Nat)) := []
  sighash_type : Option Nat := none
  redeem_script : List Nat := []
  witness_script : List Nat := []
  hd_keypaths : List (Nat × List Nat) := []
  final_script_sig : List Nat := []
  final_script_witness : List (List Nat) := []
  ripemd160_preimages : List (Nat × List Nat) := []
  sha256_preimages : List (Nat × List Nat) := []
  hash160_preimages : List (Nat × List Nat) := []
  hash256_preimages : List (Nat × List Nat) := []
  m_tap_key_sig : List Nat := []
  m_tap_script_sigs : List ((Nat × Nat) × List Nat) := []
  m_tap_scripts : List ((List Nat × Nat) × List (List Nat)) := []
  m_tap_bip32_paths : List (Nat × (List Nat × List Nat)) := []
  m_tap_internal_key : Nat := 0
  m_tap_merkle_root : Nat := 0
  proprietary : List PSKTProprietary := []
  unknown : List (List Nat × List Nat) := []
deriving DecidableEq, Repr

instance : Inhabited PSKTInput := ⟨{}⟩

/-- `PSKTOutput`: the per-output record of a PSKT. -/
structure PSKTOutput where
  redeem_script : List Nat := []
  witness_script : List Nat := []
  hd_keypaths : List (Nat × List Nat) := []
  m_tap_internal_key : Nat := 0
  m_tap_tree : List (Nat × Nat × List Nat) := []
  m_tap_bip32_paths : List (Nat × (List Nat × List Nat)) := []
  proprietary : List PSKTProprietary := []
  unknown : List (List Nat × List Nat) := []
deriving DecidableEq, Repr

instance : Inhabited PSKTOutput := ⟨{}⟩

/-- `PartiallySignedTransaction`. The C++ field `tx` is
`std::optional<CMutableTransaction>`; every operation modelled here
dereferences it unconditionally, so the embedding carries the transaction
directly. `m_xpubs` is `std::map<KeyOriginInfo, std::set<CExtPubKey>>`. -/
structure PartiallySignedTransaction where
  tx : CMutableTransaction := default
  inputs : List PSKTInput := []
  outputs : List PSKTOutput := []
  m_xpubs : List (List Nat × List Nat) := []
  m_proprietary : List PSKTProprietary := []
  unknown : List (List Nat × List Nat) := []
  m_version : Option Nat := none
deriving DecidableEq, Repr

instance : Inhabited PartiallySignedTransaction := ⟨{}⟩

/-- `PartiallySignedTransaction::GetVersion`: 0 when the optional version is
absent. -/
def PartiallySignedTransaction.GetVersion (p : PartiallySignedTransaction) : Nat :=
  p.m_version.getD 0

/-! ## Merge algebra (`pskt.cpp`) -/

/-- The merge rule of a first-writer-wins optional byte-vector field:
`if (a.empty() && !b.empty()) a = b`. -/
def fillList {α : Type} (a b : List α) : List α :=
  if a.isEmpty ∧ ¬b.isEmpty then b else a

/-- The merge rule of a first-writer-wins `std::optional`/pointer field:
`if (!a && b) a = b`. -/
def fillOpt {α : Type} (a b : Option α) : Option α :=
  if a.isNone ∧ b.isSome then b else a

/-- The merge rule of a first-writer-wins field whose null state is `0`
(x-only pubkey, uint256): `if (a.IsNull() && !b.IsNull()) a = b`. -/
def fillNat (a b : Nat) : Nat :=
  if a = 0 ∧ b ≠ 0 then b else a

/-- The merge rule for `witness_utxo`:
`if (a.IsNull() && !b.IsNull()) a = b`. -/
def fillTxOut (a b : CTxOut) : CTxOut :=
  if a.IsNull ∧ ¬b.IsNull then b else a

/-- `PSKTInput::Merge`. -/
def PSKTInput.Merge (a : PSKTInput) (input : PSKTInput) : PSKTInput :=
  { a with
    non_witness_utxo := fillOpt a.non_witness_utxo input.non_witness_utxo
    witness_utxo := fillTxOut a.witness_utxo input.witness_utxo
    partial_sigs := mapInsertAll a.partial_sigs input.partial_sigs
    ripemd160_preimages := mapInsertAll a.ripemd160_preimages input.ripemd160_preimages
    sha256_preimages := mapInsertAll a.sha256_preimages input.sha256_preimages
    hash160_preimages := mapInsertAll a.hash160_preimages input.hash160_preimages
    hash256_preimages := mapInsertAll a.hash256_preimages input.hash256_preimages
    hd_keypaths := mapInsertAll a.hd_keypaths input.hd_keypaths
    unknown := mapInsertAll a.unknown input.unknown
    m_tap_script_sigs := mapInsertAll a.m_tap_script_sigs input.m_tap_script_sigs
    m_tap_scripts := mapInsertAll a.m_tap_scripts input.m_tap_scripts
    m_tap_bip32_paths := mapInsertAll a.m_tap_bip32_paths input.m_tap_bip32_paths
    redeem_script := fillList a.redeem_script input.redeem_script
    witness_script := fillList a.witness_script input.witness_script
    final_script_sig := fillList a.final_script_sig input.final_script_sig
    final_script_witness := fillList a.final_script_witness input.final_script_witness
    m_tap_key_sig := fillList a.m_tap_key_sig input.m_tap_key_sig
    m_tap_internal_key := fillNat a.m_tap_internal_key input.m_tap_internal_key
    m_tap_merkle_root := fillNat a.m_tap_merkle_root input.m_tap_merkle_root }

/-- `PSKTOutput::Merge`. -/
def PSKTOutput.Merge (a : PSKTOutput) (output : PSKTOutput) : PSKTOutput :=
  { a with
    hd_keypaths := mapInsertAll a.hd_keypaths output.hd_keypaths
    unknown := mapInsertAll a.unknown output.unknown
    m_tap_bip32_paths := mapInsertAll a.m_tap_bip32_paths output.m_tap_bip32_paths
    redeem_script := fillList a.redeem_script output.redeem_script
    witness_script := fillList a.witness_script output.witness_script
    m_tap_internal_key := fillNat a.m_tap_internal_key output.m_tap_internal_key
    m_tap_tree := if a.m_tap_tree.isEmpty ∧ ¬output.m_tap_tree.isEmpty
                  then output.m_tap_tree else a.m_tap_tree }

/-- The `m_xpubs` merge loop of `PartiallySignedTransaction::Merge`: a key
absent on the left is copied whole; a key present on both sides has the
right-hand `std::set` of xpubs inserted into (unioned with) the left one. -/
def xpubsMerge (m l : List (List Nat × List Nat)) : List (List Nat × List Nat) :=
  l.foldl
    (fun acc p =>
      match alookup p.1 acc with
      | none => acc ++ [p]
      | some s => updateVal acc p.1 (fun _ => setUnion s p.2))
    m

/-- `PartiallySignedTransaction::Merge`. The C++ mutates the receiver and
returns `bool`; the embedding returns `none` for `false` (in which case the
C++ receiver is unchanged) and `some` of the merged value for `true`. -/
def PartiallySignedTransaction.Merge (a : PartiallySignedTransaction)
    (pskt : PartiallySignedTransaction) : Option PartiallySignedTransaction :=
  if a.tx.GetHash ≠ pskt.tx.GetHash then none
  else some
    { a with
      inputs := a.inputs.mapIdx (fun i ai => ai.Merge (pskt.inputs.getD i default))
      outputs := a.outputs.mapIdx (fun i ao => ao.Merge (pskt.outputs.getD i default))
      m_xpubs := xpubsMerge a.m_xpubs pskt.m_xpubs
      unknown := mapInsertAll a.unknown pskt.unknown }

/-- `TransactionError`, restricted to the two constructors `CombinePSKTs`
produces. -/
inductive TransactionError where
  | OK
  | PSKT_MISMATCH
deriving DecidableEq, Repr

/-- `CombinePSKTs`. The C++ takes a non-empty vector (it reads `psktxs[0]`
unconditionally), copies the first element into `out` and left-folds `Merge`
over the rest, returning `PSKT_MISMATCH` at the first failing merge; the
embedding takes the head and the tail separately and models the early return
by freezing the accumulator once the error is set. -/
def CombinePSKTs (first : PartiallySignedTransaction)
    (rest : List PartiallySignedTransaction) :
    TransactionError × PartiallySignedTransaction :=
  rest.foldl
    (fun acc p =>
      match acc.1 with
      | TransactionError.PSKT_MISMATCH => acc
      | TransactionError.OK =>
          match acc.2.Merge p with
          | none => (TransactionError.PSKT_MISMATCH, acc.2)
          | some m => (TransactionError.OK, m))
    (TransactionError.OK, first)

/-! ## Data-model operations (`pskt.cpp`) -/

/-- `PSKTInputSigned`: an input is signed once a final scriptSig or a final
script witness is present. -/
def PSKTInputSigned (input : PSKTInput) : Bool :=
  !input.final_script_sig.isEmpty || !input.final_script_witness.isEmpty

/-- `PartiallySignedTransaction::AddInput`. The C++ mutates the receiver and
the passed-in record and returns `bool`; the embedding returns `none` for
`false` (receiver unchanged) and the updated PSKT for `true`. Note the
duplicate test is `std::find` over `tx.vin` with `CTxIn` equality (prevout,
scriptSig and nSequence all compared), not an outpoint test. -/
def PartiallySignedTransaction.AddInput (p : PartiallySignedTransaction)
    (txin : CTxIn) (psktin : PSKTInput) : Option PartiallySignedTransaction :=
  if txin ∈ p.tx.vin then none
  else some
    { p with
      tx := { p.tx with vin := p.tx.vin ++ [txin] }
      inputs := p.inputs ++
        [{ psktin with partial_sigs := [], final_script_sig := [],
                       final_script_witness := [] }] }

/-- `PartiallySignedTransaction::AddOutput` (always succeeds). -/
def PartiallySignedTransaction.AddOutput (p : PartiallySignedTransaction)
    (txout : CTxOut) (psktout : PSKTOutput) : PartiallySignedTransaction :=
  { p with
    tx := { p.tx with vout := p.tx.vout ++ [txout] }
    outputs := p.outputs ++ [psktout] }

/-- `PartiallySignedTransaction::GetInputUTXO`: prefer `non_witness_utxo`
with verified prevout index and txid, else `witness_utxo`, else failure.
The C++ returns `bool` with an out-parameter; the embedding returns
`Option CTxOut`. -/
def PartiallySignedTransaction.GetInputUTXO (p : PartiallySignedTransaction)
    (input_index : Nat) : Option CTxOut :=
  let input := p.inputs.getD input_index default
  let prevout_index := (p.tx.vin.getD input_index default).prevout.n
  match input.non_witness_utxo with
  | some nwu =>
      if prevout_index ≥ nwu.vout.length then none
      else if nwu.GetHash ≠ (p.tx.vin.getD input_index default).prevout.hash then none
      else some (nwu.vout.getD prevout_index default)
  | none =>
      if ¬input.witness_utxo.IsNull then some input.witness_utxo else none

/-! ## Signature pipeline (`pskt.cpp`, `SignatureData` from `script/sign.h`) -/

/-- `TaprootSpendData` (the part the PSKT engine reads/writes): x-only
internal key and merkle root with `0` as the null state, and the
script-to-control-blocks map. -/
structure TaprootSpendData where
  internal_key : Nat := 0
  merkle_root : Nat := 0
  scripts : List ((List Nat × Nat) × List (List Nat)) := []
deriving DecidableEq, Repr

instance : Inhabited TaprootSpendData := ⟨{}⟩

/-- `SignatureData`: the neutral bundle exchanged with the signing provider
(spec §3.5), with the fields `pskt.cpp` reads and writes. `misc_pubkeys`
maps a key id to (pubkey, key origin); the `missing_*` fields are the
"missing" report; `missing_redeem_script` (uint160) and
`missing_witness_script` (uint256) use `0` as their `IsNull()` state. -/
structure SignatureData where
  complete : Bool := false
  witness : Bool := false
  scriptSig : List Nat := []
  scriptWitness : List (List Nat) := []
  signatures : List (Nat × (Nat × List Nat)) := []
  misc_pubkeys : List (Nat × (Nat × List Nat)) := []
  redeem_script : List Nat := []
  witness_script : List Nat := []
  taproot_key_path_sig : List Nat := []
  taproot_script_sigs : List ((Nat × Nat) × List Nat) := []
  tr_spenddata : TaprootSpendData := {}
  taproot_misc_pubkeys : List (Nat × (List Nat × List Nat)) := []
  missing_pubkeys : List Nat := []
  missing_sigs : List Nat := []
  missing_redeem_script : Nat := 0
  missing_witness_script : Nat := 0
deriving DecidableEq, Repr

instance : Inhabited SignatureData := ⟨{}⟩

/-- `PSKTInput::FillSignatureData`. The C++ is a chain of conditional
assignments into `sigdata`; each is rendered as a conditional field value.
If a final scriptSig or witness is present the bundle is marked complete
and the function stops there; otherwise the metadata is copied in.
`CPubKey::GetID` (a Hash160 of the key) is modelled as the identity on the
abstract key universe, so a `hd_keypaths` entry `(pubkey, origin)` lands in
`misc_pubkeys` as `(pubkey, (pubkey, origin))`. -/
def PSKTInput.FillSignatureData (inp : PSKTInput) (sigdata : SignatureData) :
    SignatureData :=
  if sigdata.complete ∨ ¬inp.final_script_sig.isEmpty ∨
      ¬inp.final_script_witness.isEmpty then
    { sigdata with
      scriptSig := if ¬inp.final_script_sig.isEmpty then inp.final_script_sig
                   else sigdata.scriptSig
      scriptWitness := if ¬inp.final_script_witness.isEmpty then inp.final_script_witness
                       else sigdata.scriptWitness
      complete := true }
  else
    { sigdata with
      signatures := mapInsertAll sigdata.signatures inp.partial_sigs
      redeem_script := if ¬inp.redeem_script.isEmpty then inp.redeem_script
                       else sigdata.redeem_script
      witness_script := if ¬inp.witness_script.isEmpty then inp.witness_script
                        else sigdata.witness_script
      misc_pubkeys := inp.hd_keypaths.foldl (fun m kp => insertKV m kp.1 (kp.1, kp.2))
        sigdata.misc_pubkeys
      taproot_key_path_sig := if ¬inp.m_tap_key_sig.isEmpty then inp.m_tap_key_sig
                              else sigdata.taproot_key_path_sig
      taproot_script_sigs := mapInsertAll sigdata.taproot_script_sigs inp.m_tap_script_sigs
      tr_spenddata :=
        { internal_key := if inp.m_tap_internal_key ≠ 0 then inp.m_tap_internal_key
                          else sigdata.tr_spenddata.internal_key
          merkle_root := if inp.m_tap_merkle_root ≠ 0 then inp.m_tap_merkle_root
                         else sigdata.tr_spenddata.merkle_root
          scripts := mapInsertAll sigdata.tr_spenddata.scripts inp.m_tap_scripts }
      taproot_misc_pubkeys :=
        mapInsertAll sigdata.taproot_misc_pubkeys inp.m_tap_bip32_paths }

/-- `PSKTInput::FromSignatureData`: a complete bundle clears the metadata
and stores the final forms (each only when non-empty); an incomplete bundle
is merged field by field (map union, fill-if-empty), again as straight-line
conditional assignments. -/
def PSKTInput.FromSignatureData (inp : PSKTInput) (sigdata : SignatureData) :
    PSKTInput :=
  if sigdata.complete then
    { inp with
      partial_sigs := []
      hd_keypaths := []
      redeem_script := []
      witness_script := []
      final_script_sig := if ¬sigdata.scriptSig.isEmpty then sigdata.scriptSig
                          else inp.final_script_sig
      final_script_witness := if ¬sigdata.scriptWitness.isEmpty then sigdata.scriptWitness
                              else inp.final_script_witness }
  else
    { inp with
      partial_sigs := mapInsertAll inp.partial_sigs sigdata.signatures
      redeem_script := if inp.redeem_script.isEmpty ∧ ¬sigdata.redeem_script.isEmpty then
                         sigdata.redeem_script
                       else inp.redeem_script
      witness_script := if inp.witness_script.isEmpty ∧ ¬sigdata.witness_script.isEmpty then
                          sigdata.witness_script
                        else inp.witness_script
      hd_keypaths := sigdata.misc_pubkeys.foldl (fun m e => insertKV m e.2.1 e.2.2)
        inp.hd_keypaths
      m_tap_key_sig := if ¬sigdata.taproot_key_path_sig.isEmpty then
                         sigdata.taproot_key_path_sig
                       else inp.m_tap_key_sig
      m_tap_script_sigs := mapInsertAll inp.m_tap_script_sigs sigdata.taproot_script_sigs
      m_tap_internal_key := if sigdata.tr_spenddata.internal_key ≠ 0 then
                              sigdata.tr_spenddata.internal_key
                            else inp.m_tap_internal_key
      m_tap_merkle_root := if sigdata.tr_spenddata.merkle_root ≠ 0 then
                             sigdata.tr_spenddata.merkle_root
                           else inp.m_tap_merkle_root
      m_tap_scripts := mapInsertAll inp.m_tap_scripts sigdata.tr_spenddata.scripts
      m_tap_bip32_paths := mapInsertAll inp.m_tap_bip32_paths sigdata.taproot_misc_pubkeys }

/-! ## Script semantics and the dummy signing provider

`script/sign.cpp`, `script/script.h` and `script/signingprovider.h` are not
part of the repository files under verification; the definitions in this
section are modelled from the spec. -/

/-- Modelled from the spec: `CScript::IsUnspendable` (`script.h` is not in
src/). A script is provably unspendable when it starts with OP_RETURN
(0x6a = 106) or exceeds the maximum script size. -/
def scriptIsUnspendable : List Nat → Bool
  | 106 :: _ => true
  | s => s.length > 10000

/-- Modelled from the spec: the engine consumes scripts as opaque values and
drives signing through a provider capability (spec §1, §3.5); `script/sign.cpp`
is not in src/. The model fixes a minimal solvable-script universe: a script
`0 :: keys` is a recognized SegWit-type program requiring a signature from
each named key; `1 :: keys` is a legacy script naming its keys directly
(multisig-style); `3 :: keyids` is a legacy pay-to-key-hash-style script
whose public keys must be learned from key-path metadata before signatures
can even be requested; a script starting with OP_RETURN is unspendable; any
other script is unsolvable. -/
inductive ScriptClass where
  | witnessMulti (keys : List Nat)
  | legacyMulti (keys : List Nat)
  | legacyKeyHash (keyids : List Nat)
  | unspendableClass
  | unsolvable
deriving DecidableEq, Repr

/-- The classification of a script under the modelled universe. -/
def classifyScript : List Nat → ScriptClass
  | 0 :: keys => ScriptClass.witnessMulti keys
  | 1 :: keys => ScriptClass.legacyMulti keys
  | 3 :: kids => ScriptClass.legacyKeyHash kids
  | 106 :: _ => ScriptClass.unspendableClass
  | _ => ScriptClass.unsolvable

/-- The signature bytes recorded for key `k`, if any. -/
def sigBytesFor (sigdata : SignatureData) (k : Nat) : List Nat :=
  ((alookup k sigdata.signatures).getD (0, [])).2

/-- Modelled from the spec: `ProduceSignature` with the dummy signing
provider (`DUMMY_SIGNING_PROVIDER`, `script/sign.cpp` — not in src/).
Spec §4.5: with the dummy provider it "performs no new signing, but
promotes any partial signatures already present to a final scriptSig /
witness stack if they constitute a valid signing of the spent script";
§4.4/§4.6: when incomplete it reports the missing pubkeys and signatures.
The dummy provider holds no keys and no scripts, so the bundle's existing
content is all it can use; like the C++, it returns early when the bundle
is already complete, and it marks `witness` whenever the spent script is a
recognized witness program, complete or not. A complete legacy solution is
a scriptSig of data pushes (one push opcode and the signature bytes per
key); a complete witness solution is one stack element per key. -/
def dummyProduce (sigdata : SignatureData) (spk : List Nat) : SignatureData :=
  if sigdata.complete then sigdata
  else
    match classifyScript spk with
    | ScriptClass.witnessMulti keys =>
        let missing := keys.filter (fun k => (alookup k sigdata.signatures).isNone)
        if missing.isEmpty then
          { sigdata with
            complete := true
            witness := true
            scriptWitness := keys.map (sigBytesFor sigdata) }
        else
          { sigdata with
            witness := true
            missing_sigs := sigdata.missing_sigs ++ missing }
    | ScriptClass.legacyMulti keys =>
        let missing := keys.filter (fun k => (alookup k sigdata.signatures).isNone)
        if missing.isEmpty then
          { sigdata with
            complete := true
            scriptSig := (keys.map (fun k => 72 :: sigBytesFor sigdata k)).flatten }
        else { sigdata with missing_sigs := sigdata.missing_sigs ++ missing }
    | ScriptClass.legacyKeyHash kids =>
        let missingPk := kids.filter (fun k => (alookup k sigdata.misc_pubkeys).isNone)
        let knownKids := kids.filter (fun k => (alookup k sigdata.misc_pubkeys).isSome)
        let missingSig := knownKids.filter (fun k => (alookup k sigdata.signatures).isNone)
        if missingPk.isEmpty ∧ missingSig.isEmpty then
          { sigdata with
            complete := true
            scriptSig := (kids.map (fun k => 72 :: sigBytesFor sigdata k)).flatten }
        else
          { sigdata with
            missing_pubkeys := sigdata.missing_pubkeys ++ missingPk
            missing_sigs := sigdata.missing_sigs ++ missingSig }
    | ScriptClass.unspendableClass => sigdata
    | ScriptClass.unsolvable => sigdata

/-- The "missing" report `SignPSKTInput` copies into `out_sigdata`. -/
structure MissingInfo where
  missing_pubkeys : List Nat := []
  missing_sigs : List Nat := []
  missing_redeem_script : Nat := 0
  missing_witness_script : Nat := 0
deriving DecidableEq, Repr

instance : Inhabited MissingInfo := ⟨{}⟩

/-- The "Get UTXO" block of `SignPSKTInput`: the non-witness form with its
prevout-index and txid checks, else the witness form with the
`require_witness_sig` marker, else failure. -/
def utxoResolve (txin : CTxIn) (input : PSKTInput) : Option (CTxOut × Bool) :=
  match input.non_witness_utxo with
  | some nwu =>
      if txin.prevout.n ≥ nwu.vout.length then none
      else if nwu.GetHash ≠ txin.prevout.hash then none
      else some (nwu.vout.getD txin.prevout.n default, false)
  | none =>
      if ¬input.witness_utxo.IsNull then some (input.witness_utxo, true)
      else none

/-- The body of `SignPSKTInput` acting on one input record and its `txin`.
The provider, the precomputed transaction data and the sighash type enter
the C++ only through the `ProduceSignature` call, so they are collapsed
into the `produce` parameter (instantiated with `dummyProduce` at every
`DUMMY_SIGNING_PROVIDER` call site). The C++ returns `sig_complete` and
mutates the input record and the optional `out_sigdata` (of which only the
four `missing_*` fields are written); the embedding returns all three. On
every early `return false` path the C++ leaves the record and
`out_sigdata` untouched. -/
def signOnInput (produce : SignatureData → List Nat → SignatureData)
    (txin : CTxIn) (input : PSKTInput) (finalize : Bool) :
    Bool × PSKTInput × MissingInfo :=
  if PSKTInputSigned input then (true, input, {})
  else
    let sigdata := input.FillSignatureData {}
    match utxoResolve txin input with
    | none => (false, input, {})
    | some (utxo, require_witness_sig) =>
        let s := produce { sigdata with witness := false } utxo.scriptPubKey
        if require_witness_sig ∧ s.witness = false then (false, input, {})
        else
          let s2 := if ¬finalize ∧ s.complete then { s with complete := false } else s
          let input2 := input.FromSignatureData s2
          let input3 := if s.witness then { input2 with witness_utxo := utxo } else input2
          (s.complete, input3,
           { missing_pubkeys := s.missing_pubkeys, missing_sigs := s.missing_sigs,
             missing_redeem_script := s.missing_redeem_script,
             missing_witness_script := s.missing_witness_script })

/-- `SignPSKTInput` proper: apply the per-input body at `index` and write the
(possibly unchanged) record back. On the C++ `return false` paths the record
is returned untouched, so writing it back leaves the sequence equal to the
original. -/
def SignPSKTInput (produce : SignatureData → List Nat → SignatureData)
    (pskt : PartiallySignedTransaction) (index : Nat) (finalize : Bool) :
    Bool × PartiallySignedTransaction × MissingInfo :=
  let r := signOnInput produce (pskt.tx.vin.getD index default)
    (pskt.inputs.getD index default) finalize
  (r.1, { pskt with inputs := pskt.inputs.set index r.2.1 }, r.2.2)

/-- The loop body of `FinalizePSKT`: one `SignPSKTInput` call at index `i`,
AND-ed into the running flag. -/
def finStep (acc : Bool × PartiallySignedTransaction) (i : Nat) :
    Bool × PartiallySignedTransaction :=
  let r := SignPSKTInput dummyProduce acc.2 i true
  (acc.1 && r.1, r.2.1)

/-- `FinalizePSKT`: run `SignPSKTInput` with the dummy signing provider and
`finalize = true` over every input, AND-ing the per-input results. The
`PrecomputePSKTData` value only feeds the signature creator inside
`ProduceSignature`, which the dummy-provider model collapses into
`dummyProduce`. -/
def FinalizePSKT (psktx : PartiallySignedTransaction) :
    Bool × PartiallySignedTransaction :=
  (List.range psktx.tx.vin.length).foldl finStep (true, psktx)

/-! ## Analyzer (`node/pskt.cpp`, `node/pskt.h`) -/

/-- `PSKTRole`: the ordered workflow-role enum. -/
inductive PSKTRole where
  | CREATOR
  | UPDATER
  | SIGNER
  | FINALIZER
  | EXTRACTOR
deriving DecidableEq, Repr

/-- The numeric value of a role (its enumerator value). -/
def PSKTRole.toNat : PSKTRole → Nat
  | PSKTRole.CREATOR => 0
  | PSKTRole.UPDATER => 1
  | PSKTRole.SIGNER => 2
  | PSKTRole.FINALIZER => 3
  | PSKTRole.EXTRACTOR => 4

/-- `std::min` on the role enum: the right argument is returned only when it
is strictly smaller. -/
def roleMin (a b : PSKTRole) : PSKTRole :=
  if b.toNat < a.toNat then b else a

/-- Modelled from the spec: the consensus money range
(`consensus/amount.h` is not in src/): a monetary value is valid when
`0 <= nValue <= MAX_MONEY` with `MAX_MONEY = 21,000,000 * 10^8`. -/
def MAX_MONEY : Int := 21000000 * 100000000

/-- `MoneyRange` (modelled from the spec, `consensus/amount.h`). -/
def MoneyRange (nValue : Int) : Prop := 0 ≤ nValue ∧ nValue ≤ MAX_MONEY

instance (nValue : Int) : Decidable (MoneyRange nValue) := by
  unfold MoneyRange
  infer_instance

/-- Modelled from the spec: `CFeeRate(fee, vsize)` scales the fee to
per-1000-virtual-bytes (spec §4.6; `policy/feerate.cpp` is not in src/). -/
def mkFeeRate (nFeePaid : Int) (num_bytes : Nat) : Int :=
  if 0 < num_bytes then nFeePaid * 1000 / (num_bytes : Int) else 0

/-- `PSKTInputAnalysis`. `result.inputs.resize(n)` value-initializes the
records, so every field starts zeroed (`false`, `CREATOR`, empty). -/
structure PSKTInputAnalysis where
  has_utxo : Bool := false
  is_final : Bool := false
  next : PSKTRole := PSKTRole.CREATOR
  missing_pubkeys : List Nat := []
  missing_sigs : List Nat := []
  missing_redeem_script : Nat := 0
  missing_witness_script : Nat := 0
deriving DecidableEq, Repr

instance : Inhabited PSKTInputAnalysis := ⟨{}⟩

/-- `PSKTAnalysis`. `estimated_feerate` carries the modelled `CFeeRate`
value; `error` is `none` until `SetInvalid` stores a message. -/
structure PSKTAnalysis where
  estimated_vsize : Option Nat := none
  estimated_feerate : Option Int := none
  fee : Option Int := none
  inputs : List PSKTInputAnalysis := []
  next : PSKTRole := PSKTRole.CREATOR
  error : Option String := none
deriving DecidableEq, Repr

/-- `PSKTAnalysis::SetInvalid`: clears every estimate, drops the per-input
records, resets the next role to `CREATOR` and stores the message. -/
def PSKTAnalysis.SetInvalid (err_msg : String) : PSKTAnalysis :=
  { estimated_vsize := none
    estimated_feerate := none
    fee := none
    inputs := []
    next := PSKTRole.CREATOR
    error := some err_msg }

/-- State threaded through the first loop of `AnalyzePSKT`: the working PSKT
copy (`SignPSKTInput` mutates it), the running input amount, the fee flag
and the per-input analyses built so far. -/
structure AnalyzeLoopState where
  psktx : PartiallySignedTransaction
  in_amt : Int
  calc_fee : Bool
  inputsAnalyses : List PSKTInputAnalysis

/-- The first loop of `AnalyzePSKT`, one iteration per input index; an
`Except.error` carries the `SetInvalid` early return. The
`SignPSKTInput` call is the C++
`SignPSKTInput(DUMMY_SIGNING_PROVIDER, psktx, i, &txdata, 1, &outdata)`
(the header's default `finalize = true` applies). -/
def analyzeInputsLoop : List Nat → AnalyzeLoopState →
    Except PSKTAnalysis AnalyzeLoopState
  | [], st => Except.ok st
  | i :: rest, st =>
      let input := st.psktx.inputs.getD i default
      let ia0 : PSKTInputAnalysis := { next := PSKTRole.EXTRACTOR }
      match st.psktx.GetInputUTXO i with
      | some utxo =>
          if ¬(MoneyRange utxo.nValue ∧ MoneyRange (st.in_amt + utxo.nValue)) then
            Except.error (PSKTAnalysis.SetInvalid
              ("PSKT is not valid. Input " ++ toString i ++ " has invalid value"))
          else
            let st := { st with in_amt := st.in_amt + utxo.nValue }
            let ia := { ia0 with has_utxo := true }
            if ¬utxo.IsNull ∧ scriptIsUnspendable utxo.scriptPubKey then
              Except.error (PSKTAnalysis.SetInvalid
                ("PSKT is not valid. Input " ++ toString i ++ " spends unspendable output"))
            else if ¬utxo.IsNull ∧ ¬PSKTInputSigned input then
              let r := SignPSKTInput dummyProduce st.psktx i true
              let st := { st with psktx := r.2.1 }
              let ia := { ia with is_final := false }
              if r.1 = false then
                let mi := r.2.2
                let ia :=
                  { ia with
                    missing_pubkeys := mi.missing_pubkeys
                    missing_redeem_script := mi.missing_redeem_script
                    missing_witness_script := mi.missing_witness_script
                    missing_sigs := mi.missing_sigs
                    next :=
                      if mi.missing_pubkeys.isEmpty ∧ mi.missing_redeem_script = 0 ∧
                          mi.missing_witness_script = 0 ∧ ¬mi.missing_sigs.isEmpty then
                        PSKTRole.SIGNER
                      else PSKTRole.UPDATER }
                analyzeInputsLoop rest
                  { st with inputsAnalyses := st.inputsAnalyses ++ [ia] }
              else
                analyzeInputsLoop rest
                  { st with inputsAnalyses :=
                      st.inputsAnalyses ++ [{ ia with next := PSKTRole.FINALIZER }] }
            else if ¬utxo.IsNull then
              analyzeInputsLoop rest
                { st with inputsAnalyses :=
                    st.inputsAnalyses ++ [{ ia with is_final := true }] }
            else
              analyzeInputsLoop rest
                { st with inputsAnalyses := st.inputsAnalyses ++ [ia] }
      | none =>
          let badPrevout : Bool :=
            match input.non_witness_utxo with
            | some nwu => decide ((st.psktx.tx.vin.getD i default).prevout.n ≥ nwu.vout.length)
            | none => false
          if badPrevout then
            Except.error (PSKTAnalysis.SetInvalid
              ("PSKT is not valid. Input " ++ toString i ++ " specifies invalid prevout"))
          else
            let ia :=
              { ia0 with has_utxo := false, is_final := false, next := PSKTRole.UPDATER }
            analyzeInputsLoop rest
              { st with
                calc_fee := false
                inputsAnalyses := st.inputsAnalyses ++ [ia] }

/-- The size-estimation loop of `AnalyzePSKT`: re-sign each input with the
dummy provider (`txdata = nullptr`, default `finalize = true`), break on any
failure, and write the finalized scriptSig/witness into the transaction
skeleton. Returns the skeleton, or `none` when the loop broke
(`success = false`). -/
def analyzeEstimateLoop :
    List Nat → PartiallySignedTransaction → CMutableTransaction →
    Option CMutableTransaction
  | [], _, mtx => some mtx
  | i :: rest, psktx, mtx =>
      let r := SignPSKTInput dummyProduce psktx i true
      let psktx := r.2.1
      if r.1 = false then none
      else
        match psktx.GetInputUTXO i with
        | none => none
        | some _ =>
            let input := psktx.inputs.getD i default
            let txin := mtx.vin.getD i default
            let txin2 :=
              { txin with
                scriptSig := input.final_script_sig
                scriptWitness := input.final_script_witness }
            let mtx := { mtx with vin := mtx.vin.set i txin2 }
            analyzeEstimateLoop rest psktx mtx

/-- `AnalyzePSKT` (`node/pskt.cpp`). The virtual-size computation
(`GetVirtualTransactionSize` with the sigop cost over the throwaway coin
view — `policy/policy.cpp`, `consensus/tx_verify.cpp`, not in src/) is
abstracted as a size oracle `estimator` on the finalized transaction
skeleton; no claim inspects the estimate itself. The C++
`assert(result.next > CREATOR)` is established as a theorem below rather
than modelled as an abort. -/
def AnalyzePSKT (estimator : CMutableTransaction → Nat)
    (psktx : PartiallySignedTransaction) : PSKTAnalysis :=
  match analyzeInputsLoop (List.range psktx.tx.vin.length)
      { psktx := psktx, in_amt := 0, calc_fee := true, inputsAnalyses := [] } with
  | Except.error res => res
  | Except.ok st =>
      let next := st.inputsAnalyses.foldl (fun acc ia => roleMin acc ia.next)
        PSKTRole.EXTRACTOR
      let result : PSKTAnalysis := { inputs := st.inputsAnalyses, next := next }
      if st.calc_fee then
        let out_amt := psktx.tx.vout.foldl
          (fun a b =>
            if ¬(MoneyRange a ∧ MoneyRange b.nValue ∧ MoneyRange (a + b.nValue)) then
              (-1 : Int)
            else a + b.nValue)
          0
        if ¬MoneyRange out_amt then
          PSKTAnalysis.SetInvalid "PSKT is not valid. Output amount invalid"
        else
          let fee := st.in_amt - out_amt
          let result := { result with fee := some fee }
          match analyzeEstimateLoop (List.range psktx.tx.vin.length) st.psktx psktx.tx with
          | none => result
          | some mtx =>
              { result with
                estimated_vsize := some (estimator mtx)
                estimated_feerate := some (mkFeeRate fee (estimator mtx)) }
      else result

/-! ## Well-formedness, canonical merge equivalence, compatibility -/

/-- The spec §3.1 well-formedness invariants of a PSKT: record sequences
parallel to `tx.vin`/`tx.vout`, no scriptSig or witness stack inside the
unsigned transaction, and unknown/proprietary keys unique within their
section. -/
def WellFormed (p : PartiallySignedTransaction) : Prop :=
  p.inputs.length = p.tx.vin.length ∧
  p.outputs.length = p.tx.vout.length ∧
  (∀ txin ∈ p.tx.vin, txin.scriptSig = [] ∧ txin.scriptWitness = []) ∧
  (p.unknown.map Prod.fst).Nodup ∧
  p.m_proprietary.Nodup ∧
  (∀ inp ∈ p.inputs, (inp.unknown.map Prod.fst).Nodup ∧ inp.proprietary.Nodup) ∧
  (∀ o ∈ p.outputs, (o.unknown.map Prod.fst).Nodup ∧ o.proprietary.Nodup)

instance (p : PartiallySignedTransaction) : Decidable (WellFormed p) := by
  unfold WellFormed
  infer_instance

/-- Two association-list maps collapsed to their canonical unordered form:
equal lookup functions. -/
def MapCanonEq {α β : Type} [DecidableEq α] (m n : List (α × β)) : Prop :=
  ∀ k, alookup k m = alookup k n

/-- Two xpub maps collapsed to canonical form: for every key-origin, the
same set of extended public keys. -/
def SetMapCanonEq (m n : List (List Nat × List Nat)) : Prop :=
  ∀ k x, x ∈ (alookup k m).getD [] ↔ x ∈ (alookup k n).getD []

/-- Canonical form of a first-writer-wins `witness_utxo`: two null values
are canonically the same absent state even when their dead fields differ. -/
def TxOutCanonEq (a b : CTxOut) : Prop :=
  (a.IsNull = true ∧ b.IsNull = true) ∨ a = b

/-- Canonical (unordered) agreement of two per-input records on the fields
`PSKTInput::Merge` combines: the two UTXO forms, every map-valued field, and
every first-writer-wins scalar. -/
def PSKTInput.CanonEq (a b : PSKTInput) : Prop :=
  a.non_witness_utxo = b.non_witness_utxo ∧
  TxOutCanonEq a.witness_utxo b.witness_utxo ∧
  MapCanonEq a.partial_sigs b.partial_sigs ∧
  MapCanonEq a.ripemd160_preimages b.ripemd160_preimages ∧
  MapCanonEq a.sha256_preimages b.sha256_preimages ∧
  MapCanonEq a.hash160_preimages b.hash160_preimages ∧
  MapCanonEq a.hash256_preimages b.hash256_preimages ∧
  MapCanonEq a.hd_keypaths b.hd_keypaths ∧
  MapCanonEq a.unknown b.unknown ∧
  MapCanonEq a.m_tap_script_sigs b.m_tap_script_sigs ∧
  MapCanonEq a.m_tap_scripts b.m_tap_scripts ∧
  MapCanonEq a.m_tap_bip32_paths b.m_tap_bip32_paths ∧
  a.redeem_script = b.redeem_script ∧
  a.witness_script = b.witness_script ∧
  a.final_script_sig = b.final_script_sig ∧
  a.final_script_witness = b.final_script_witness ∧
  a.m_tap_key_sig = b.m_tap_key_sig ∧
  a.m_tap_internal_key = b.m_tap_internal_key ∧
  a.m_tap_merkle_root = b.m_tap_merkle_root

/-- Canonical agreement of two per-output records on the fields
`PSKTOutput::Merge` combines. -/
def PSKTOutput.CanonEq (a b : PSKTOutput) : Prop :=
  MapCanonEq a.hd_keypaths b.hd_keypaths ∧
  MapCanonEq a.unknown b.unknown ∧
  MapCanonEq a.m_tap_bip32_paths b.m_tap_bip32_paths ∧
  a.redeem_script = b.redeem_script ∧
  a.witness_script = b.witness_script ∧
  a.m_tap_internal_key = b.m_tap_internal_key ∧
  a.m_tap_tree = b.m_tap_tree

/-- Canonical agreement of two PSKTs on all set-valued and
first-writer-wins-optional fields, index by index. -/
def PartiallySignedTransaction.CanonEq (p q : PartiallySignedTransaction) : Prop :=
  p.inputs.length = q.inputs.length ∧
  p.outputs.length = q.outputs.length ∧
  (∀ i, PSKTInput.CanonEq (p.inputs.getD i default) (q.inputs.getD i default)) ∧
  (∀ i, PSKTOutput.CanonEq (p.outputs.getD i default) (q.outputs.getD i default)) ∧
  SetMapCanonEq p.m_xpubs q.m_xpubs ∧
  MapCanonEq p.unknown q.unknown

/-- Two maps agree wherever both define a key. -/
def MapCompat {α β : Type} [DecidableEq α] (m n : List (α × β)) : Prop :=
  ∀ p ∈ m, ∀ q ∈ n, p.1 = q.1 → p.2 = q.2

/-- Two emptiness-based optional byte vectors agree when both are set. -/
def ListCompat {α : Type} (a b : List α) : Prop :=
  a ≠ [] → b ≠ [] → a = b

/-- Two optionals agree when both are set. -/
def OptCompat {α : Type} (a b : Option α) : Prop :=
  ∀ x y, a = some x → b = some y → x = y

instance {α : Type} [DecidableEq α] (a b : Option α) : Decidable (OptCompat a b) :=
  match a, b with
  | none, _ => isTrue (fun _ _ hx _ => Option.noConfusion hx)
  | some _, none => isTrue (fun _ _ _ hy => Option.noConfusion hy)
  | some u, some v =>
      if h : u = v then
        isTrue (fun x y hx hy => by
          rw [← Option.some.inj hx, ← Option.some.inj hy]
          exact h)
      else isFalse (fun hc => h (hc u v rfl rfl))

/-- Two zero-null scalars agree when both are set. -/
def NatCompat (a b : Nat) : Prop := a ≠ 0 → b ≠ 0 → a = b

/-- Two `witness_utxo` values agree when both are non-null. -/
def TxOutCompat (a b : CTxOut) : Prop := ¬a.IsNull → ¬b.IsNull → a = b

/-- Per-input compatibility: on every field `PSKTInput::Merge` combines, the
two records agree wherever both carry data. -/
def PSKTInput.Compat (a b : PSKTInput) : Prop :=
  OptCompat a.non_witness_utxo b.non_witness_utxo ∧
  TxOutCompat a.witness_utxo b.witness_utxo ∧
  MapCompat a.partial_sigs b.partial_sigs ∧
  MapCompat a.ripemd160_preimages b.ripemd160_preimages ∧
  MapCompat a.sha256_preimages b.sha256_preimages ∧
  MapCompat a.hash160_preimages b.hash160_preimages ∧
  MapCompat a.hash256_preimages b.hash256_preimages ∧
  MapCompat a.hd_keypaths b.hd_keypaths ∧
  MapCompat a.unknown b.unknown ∧
  MapCompat a.m_tap_script_sigs b.m_tap_script_sigs ∧
  MapCompat a.m_tap_scripts b.m_tap_scripts ∧
  MapCompat a.m_tap_bip32_paths b.m_tap_bip32_paths ∧
  ListCompat a.redeem_script b.redeem_script ∧
  ListCompat a.witness_script b.witness_script ∧
  ListCompat a.final_script_sig b.final_script_sig ∧
  ListCompat a.final_script_witness b.final_script_witness ∧
  ListCompat a.m_tap_key_sig b.m_tap_key_sig ∧
  NatCompat a.m_tap_internal_key b.m_tap_internal_key ∧
  NatCompat a.m_tap_merkle_root b.m_tap_merkle_root

/-- Per-output compatibility. -/
def PSKTOutput.Compat (a b : PSKTOutput) : Prop :=
  MapCompat a.hd_keypaths b.hd_keypaths ∧
  MapCompat a.unknown b.unknown ∧
  MapCompat a.m_tap_bip32_paths b.m_tap_bip32_paths ∧
  ListCompat a.redeem_script b.redeem_script ∧
  ListCompat a.witness_script b.witness_script ∧
  NatCompat a.m_tap_internal_key b.m_tap_internal_key ∧
  ListCompat a.m_tap_tree b.m_tap_tree

/-- PSKT-wide compatibility: index-wise input/output compatibility, xpub and
unknown map compatibility, and unique xpub keys on both sides (a `std::map`
cannot carry a duplicate key; the association-list model states it
explicitly). -/
def PartiallySignedTransaction.Compat (p q : PartiallySignedTransaction) : Prop :=
  (∀ i, i < p.inputs.length →
    PSKTInput.Compat (p.inputs.getD i default) (q.inputs.getD i default)) ∧
  (∀ i, i < p.outputs.length →
    PSKTOutput.Compat (p.outputs.getD i default) (q.outputs.getD i default)) ∧
  MapCompat p.m_xpubs q.m_xpubs ∧
  MapCompat p.unknown q.unknown ∧
  (p.m_xpubs.map Prod.fst).Nodup ∧
  (q.m_xpubs.map Prod.fst).Nodup

instance {α β : Type} [DecidableEq α] [DecidableEq β] (m n : List (α × β)) :
    Decidable (MapCompat m n) := by
  unfold MapCompat
  infer_instance

instance {α : Type} [DecidableEq α] (a b : List α) : Decidable (ListCompat a b) := by
  unfold ListCompat
  infer_instance

instance (a b : Nat) : Decidable (NatCompat a b) := by
  unfold NatCompat
  infer_instance

instance (a b : CTxOut) : Decidable (TxOutCompat a b) := by
  unfold TxOutCompat
  infer_instance

instance (a b : PSKTInput) : Decidable (a.Compat b) := by
  unfold PSKTInput.Compat
  infer_instance

instance (a b : PSKTOutput) : Decidable (a.Compat b) := by
  unfold PSKTOutput.Compat
  infer_instance

instance (a b : PartiallySignedTransaction) : Decidable (a.Compat b) := by
  unfold PartiallySignedTransaction.Compat
  infer_instance

/-! ## Decodable shapes and the decodepskt access (claim C10) -/

/-- Modelled from the spec: the image of `DecodeBase64PSKT` /
`DecodeRawPSKT` (the wire codec lives in the pskt.h serialization code,
which is not in src/). Spec §8 guarantees `decode(encode(p)) == p` for
every PSKT `p`, and §4.1 lists the decoder's only error conditions: bad
magic, truncation / trailing bytes, a duplicate key within a section, a
known-typed record with a malformed value, and a section count differing
from `tx.vin`/`tx.vout`. A PSKT satisfying those structural checks is
therefore in the decoder's image; no decoder check relates a non-witness
UTXO's output count to the spending input's prevout index. -/
def DecodableShape (p : PartiallySignedTransaction) : Prop :=
  p.inputs.length = p.tx.vin.length ∧
  p.outputs.length = p.tx.vout.length ∧
  (p.unknown.map Prod.fst).Nodup ∧
  (∀ inp ∈ p.inputs, (inp.unknown.map Prod.fst).Nodup) ∧
  (∀ o ∈ p.outputs, (o.unknown.map Prod.fst).Nodup)

instance (p : PartiallySignedTransaction) : Decidable (DecodableShape p) := by
  unfold DecodableShape
  infer_instance

/-- The unguarded element access
`input.non_witness_utxo->vout[psktx.tx->vin[i].prevout.n]` that the
`decodepskt` RPC performs while rendering input `i`
(`rawtransaction.cpp`); `none` means the index is out of the vector's
range, an out-of-bounds read in the C++. -/
def decodepsktNonWitnessAccess (psktx : PartiallySignedTransaction) (i : Nat) :
    Option CTxOut :=
  match (psktx.inputs.getD i default).non_witness_utxo with
  | none => none
  | some nwu => nwu.vout[(psktx.tx.vin.getD i default).prevout.n]?

/-- The missing-report shape on which the analyzer assigns `SIGNER`: no
missing pubkeys, null missing redeem- and witness-script hashes, and at
least one missing signature (spec §4.6). -/
def OnlySigsMissing (ia : PSKTInputAnalysis) : Prop :=
  ia.missing_pubkeys.isEmpty = true ∧ ia.missing_redeem_script = 0 ∧
  ia.missing_witness_script = 0 ∧ ia.missing_sigs.isEmpty = false

instance (ia : PSKTInputAnalysis) : Decidable (OnlySigsMissing ia) := by
  unfold OnlySigsMissing
  infer_instance

/-! ## Concrete instances used by counterexamples and witnesses -/

/-- A one-input, zero-output unsigned transaction template. -/
def tx1in : CMutableTransaction :=
  { nVersion := 2
    vin := [{ prevout := { hash := 9, n := 0 }, scriptSig := [], scriptWitness := [],
              nSequence := 0 }]
    vout := []
    nLockTime := 0 }

/-- A well-formed PSKT over `tx1in` whose single input carries a partial
signature `[1]` for key 7. -/
def psktSigA : PartiallySignedTransaction :=
  { tx := tx1in
    inputs := [{ partial_sigs := [(7, (7, [1]))] }]
    outputs := [] }

/-- A well-formed PSKT over `tx1in` whose single input carries a
*different* partial signature `[2]` for the same key 7. -/
def psktSigB : PartiallySignedTransaction :=
  { tx := tx1in
    inputs := [{ partial_sigs := [(7, (7, [2]))] }]
    outputs := [] }

/-- A `CTxIn` spending the same outpoint as `tx1in`'s input but with a
different sequence number: not equal as a whole `CTxIn`. -/
def txinDupSeq : CTxIn :=
  { prevout := { hash := 9, n := 0 }, scriptSig := [], scriptWitness := [],
    nSequence := 1 }

/-- A `CTxIn` spending a fresh outpoint. -/
def txinNew : CTxIn :=
  { prevout := { hash := 10, n := 1 }, scriptSig := [], scriptWitness := [],
    nSequence := 0 }

/-- A per-input record loaded with signature data and a redeem script. -/
def psktinLoaded : PSKTInput :=
  { partial_sigs := [(7, (7, [1]))]
    final_script_sig := [5]
    final_script_witness := [[1]]
    redeem_script := [3, 4] }

/-- The PSKT obtained by adding `txinNew` with `psktinLoaded` to
`psktSigA`. -/
def psktJoined : PartiallySignedTransaction :=
  (psktSigA.AddInput txinNew psktinLoaded).getD default

/-- A transaction with no outputs at all, used as a predecessor. -/
def txNoVout : CMutableTransaction :=
  { nVersion := 2, vin := [], vout := [], nLockTime := 0 }

/-- A PSKT in the decoder's image whose input references output 0 of a
predecessor transaction that has no outputs. -/
def psktBadPrevout : PartiallySignedTransaction :=
  { tx := tx1in
    inputs := [{ non_witness_utxo := some txNoVout }]
    outputs := [] }

/-- A PSKT whose single input has no UTXO information at all. -/
def psktNoUtxo : PartiallySignedTransaction :=
  { tx := tx1in
    inputs := [{}]
    outputs := [] }

/-- A PSKT whose single input carries a witness UTXO locked by a
witness-type script requiring a signature from key 7, not yet signed. -/
def psktWitMissing : PartiallySignedTransaction :=
  { tx := tx1in
    inputs := [{ witness_utxo := { nValue := 5, scriptPubKey := [0, 7] } }]
    outputs := [] }

/-- A PSKT whose single input's witness UTXO has a provably unspendable
(OP_RETURN) scriptPubKey and an otherwise valid value. -/
def psktUnspendable : PartiallySignedTransaction :=
  { tx := tx1in
    inputs := [{ witness_utxo := { nValue := 5, scriptPubKey := [106] } }]
    outputs := [] }

/-- A compatible partner for `psktSigA`: a signature for a different key
and a redeem script, no field conflicting with `psktSigA`. -/
def psktSigC : PartiallySignedTransaction :=
  { tx := tx1in
    inputs := [{ partial_sigs := [(8, (8, [2]))], redeem_script := [1, 7] }]
    outputs := [] }

/-! ## Basic lemmas about the map operations -/

theorem alookup_append {α β : Type} [DecidableEq α] (k : α) (m l : List (α × β)) :
    alookup k (m ++ l) = (alookup k m).or (alookup k l) := by
  induction m with
  | nil => simp [alookup]
  | cons p ps ih =>
      by_cases h : p.1 = k <;> simp [alookup, h, ih]

theorem alookup_insertKV {α β : Type} [DecidableEq α] (k : α) (m : List (α × β))
    (a : α) (b : β) :
    alookup k (insertKV m a b) =
      if (alookup a m).isSome then alookup k m
      else (alookup k m).or (if a = k then some b else none) := by
  unfold insertKV
  by_cases h : (alookup a m).isSome
  · simp [h]
  · simp [h, alookup_append, alookup]

theorem alookup_mapInsertAll {α β : Type} [DecidableEq α] (k : α)
    (l m : List (α × β)) :
    alookup k (mapInsertAll m l) = (alookup k m).or (alookup k l) := by
  induction l generalizing m with
  | nil => simp [mapInsertAll, alookup]
  | cons p ps ih =>
      show alookup k (mapInsertAll (insertKV m p.1 p.2) ps) = _
      rw [ih, alookup_insertKV]
      by_cases hp : (alookup p.1 m).isSome
      · simp only [hp, if_true]
        by_cases hk : p.1 = k
        · subst hk
          rcases h : alookup p.1 m with _ | v
          · simp [h] at hp
          · simp [alookup, h, Option.or]
        · simp [alookup, hk]
      · simp only [hp, if_false]
        by_cases hk : p.1 = k
        · subst hk
          rcases h : alookup p.1 m with _ | v
          · simp [alookup, h, Option.or]
          · simp [h] at hp
        · simp [alookup, hk, Option.or_assoc]

/-- A range insert whose keys are all already present is the identity. -/
theorem mapInsertAll_subset {α β : Type} [DecidableEq α] (m l : List (α × β))
    (h : ∀ p ∈ l, (alookup p.1 m).isSome) : mapInsertAll m l = m := by
  induction l generalizing m with
  | nil => rfl
  | cons p ps ih =>
      show mapInsertAll (insertKV m p.1 p.2) ps = m
      have hp : (alookup p.1 m).isSome := h p (List.mem_cons_self p ps)
      have : insertKV m p.1 p.2 = m := by simp [insertKV, hp]
      rw [this]
      exact ih m (fun q hq => h q (List.mem_cons_of_mem p hq))

theorem alookup_isSome_of_mem {α β : Type} [DecidableEq α] {m : List (α × β)}
    {p : α × β} (h : p ∈ m) : (alookup p.1 m).isSome := by
  induction m with
  | nil => cases h
  | cons q qs ih =>
      rcases List.mem_cons.mp h with h | h
      · subst h; simp [alookup]
      · by_cases hq : q.1 = p.1 <;> simp [alookup, hq, ih h]

theorem alookup_mem {α β : Type} [DecidableEq α] {m : List (α × β)} {k : α} {v : β}
    (h : alookup k m = some v) : (k, v) ∈ m := by
  induction m with
  | nil => simp [alookup] at h
  | cons q qs ih =>
      by_cases hq : q.1 = k
      · simp [alookup, hq] at h
        exact List.mem_cons.mpr (Or.inl (by obtain ⟨q1, q2⟩ := q; simp_all))
      · simp [alookup, hq] at h
        exact List.mem_cons_of_mem _ (ih h)

/-! ## Claim C2: Merge succeeds exactly on equal txids; CombinePSKTs
mismatches exactly when a later txid differs from the first -/

theorem merge_isSome_iff (a b : PartiallySignedTransaction) :
    (a.Merge b).isSome ↔ a.tx.GetHash = b.tx.GetHash := by
  unfold PartiallySignedTransaction.Merge
  by_cases h : a.tx.GetHash = b.tx.GetHash <;> simp [h]

theorem merge_tx_eq {a b c : PartiallySignedTransaction}
    (h : a.Merge b = some c) : c.tx = a.tx := by
  unfold PartiallySignedTransaction.Merge at h
  by_cases hh : a.tx.GetHash = b.tx.GetHash
  · simp [hh] at h
    subst h
    rfl
  · simp [hh] at h

theorem combine_fold_tx (rest : List PartiallySignedTransaction)
    (acc : TransactionError × PartiallySignedTransaction)
    (step : TransactionError × PartiallySignedTransaction →
      PartiallySignedTransaction → TransactionError × PartiallySignedTransaction)
    (hstep : ∀ s p, (step s p).2.tx = s.2.tx) :
    (rest.foldl step acc).2.tx = acc.2.tx := by
  induction rest generalizing acc with
  | nil => rfl
  | cons p ps ih => rw [List.foldl_cons, ih, hstep]

/-- **C2.** `Merge(a, b)` succeeds precisely when the two PSKTs carry
unsigned transactions with the same txid; and `CombinePSKTs` over a
non-empty list (head plus tail) reports `PSKT_MISMATCH` precisely when some
later element's txid differs from the first element's, returning `OK`
otherwise. -/
theorem C2_merge_combine_mismatch (a b first : PartiallySignedTransaction)
    (rest : List PartiallySignedTransaction) :
    ((a.Merge b).isSome ↔ a.tx.GetHash = b.tx.GetHash) ∧
    ((CombinePSKTs first rest).1 = TransactionError.PSKT_MISMATCH ↔
      ∃ p ∈ rest, p.tx.GetHash ≠ first.tx.GetHash) := by
  refine ⟨merge_isSome_iff a b, ?_⟩
  unfold CombinePSKTs
  suffices h : ∀ (l : List PartiallySignedTransaction)
      (acc : TransactionError × PartiallySignedTransaction),
      acc.2.tx = first.tx →
      ((l.foldl (fun acc p =>
          match acc.1 with
          | TransactionError.PSKT_MISMATCH => acc
          | TransactionError.OK =>
              match acc.2.Merge p with
              | none => (TransactionError.PSKT_MISMATCH, acc.2)
              | some m => (TransactionError.OK, m)) acc).1 = TransactionError.PSKT_MISMATCH ↔
        (acc.1 = TransactionError.PSKT_MISMATCH ∨
          ∃ p ∈ l, p.tx.GetHash ≠ first.tx.GetHash)) by
    rw [h rest (TransactionError.OK, first) rfl]
    simp
  intro l
  induction l with
  | nil =>
      intro acc _
      simp
  | cons p ps ih =>
      intro acc hacc
      rw [List.foldl_cons]
      rcases hacc1 : acc.1 with _ | _
      · rcases hm : acc.2.Merge p with _ | m
        · have hne : p.tx.GetHash ≠ first.tx.GetHash := by
            intro he
            have : (acc.2.Merge p).isSome := by
              rw [merge_isSome_iff, hacc, he]
            rw [hm] at this
            simp at this
          have := ih (TransactionError.PSKT_MISMATCH, acc.2) (by simpa using hacc)
          simp only [hacc1, hm]
          rw [this]
          simp [hne]
        · have hme : m.tx = first.tx := by rw [merge_tx_eq hm, hacc]
          have heq : p.tx.GetHash = first.tx.GetHash := by
            have : (acc.2.Merge p).isSome := by rw [hm]; rfl
            rw [merge_isSome_iff, hacc] at this
            exact this.symm
          have := ih (TransactionError.OK, m) (by simpa using hme)
          simp only [hacc1, hm]
          rw [this]
          constructor
          · intro h
            rcases h with h | h
            · cases h
            · exact Or.inr (by
                rcases h with ⟨q, hq, hqn⟩
                exact ⟨q, List.mem_cons_of_mem p hq, hqn⟩)
          · intro h
            rcases h with h | h
            · cases h
            · rcases h with ⟨q, hq, hqn⟩
              rcases List.mem_cons.mp hq with hq | hq
              · subst hq; exact absurd heq hqn
              · exact Or.inr ⟨q, hq, hqn⟩
      · have hfold := ih acc hacc
        obtain ⟨e, q⟩ := acc
        simp only at hacc1
        subst hacc1
        simp only at hfold ⊢
        rw [hfold]
        simp

/-! ## List index helpers -/

theorem set_getD_self {α : Type} :
    ∀ (l : List α) (i : Nat) (d : α), l.set i (l.getD i d) = l
  | [], _, _ => rfl
  | _ :: _, 0, _ => rfl
  | x :: xs, i + 1, d => by
      show x :: xs.set i ((x :: xs).getD (i + 1) d) = x :: xs
      have : (x :: xs).getD (i + 1) d = xs.getD i d := by
        simp [List.getD_eq_getElem?_getD]
      rw [this, set_getD_self]

theorem getD_mapIdx {α β : Type} (l : List α) (f : Nat → α → β) (i : Nat) (d : β) :
    (l.mapIdx f).getD i d = ((l[i]?).map (f i)).getD d := by
  rw [List.getD_eq_getElem?_getD, List.getElem?_mapIdx]

theorem getD_set_ne {α : Type} (l : List α) (i j : Nat) (a : α) (d : α)
    (h : i ≠ j) : (l.set i a).getD j d = l.getD j d := by
  rw [List.getD_eq_getElem?_getD, List.getD_eq_getElem?_getD,
    List.getElem?_set_ne h]

theorem getD_set_self_lt {α : Type} (l : List α) (i : Nat) (a : α) (d : α)
    (h : i < l.length) : (l.set i a).getD i d = a := by
  rw [List.getD_eq_getElem?_getD, List.getElem?_set_self h]
  rfl

/-! ## Claim C7: AddInput duplicate test -/

/-- **C7 (counterexample).** `AddInput` accepts a `CTxIn` whose outpoint
already appears in `tx.vin` when the sequence number differs: the duplicate
test compares whole `CTxIn` values, not outpoints, so the claimed rejection
condition does not hold. -/
theorem C7_counterexample :
    (psktSigA.AddInput txinDupSeq default).isSome = true ∧
    txinDupSeq.prevout ∈ psktSigA.tx.vin.map CTxIn.prevout := by
  exact ⟨by decide, by decide⟩

/-- **C7 (amended).** `AddInput` rejects the addition — returning `none`
and leaving the PSKT unchanged — exactly when a `CTxIn` equal to the new
input as a whole (outpoint, scriptSig and sequence all equal) already
appears in `tx.vin`; otherwise it appends the txin to `tx.vin` and the
stripped record to the input sequence, keeping the two sequences the same
length. -/
theorem C7_addinput_rejects_equal_txin (p : PartiallySignedTransaction)
    (txin : CTxIn) (psktin : PSKTInput)
    (hlen : p.inputs.length = p.tx.vin.length) :
    (p.AddInput txin psktin = none ↔ txin ∈ p.tx.vin) ∧
    (∀ q, p.AddInput txin psktin = some q →
      q.tx.vin = p.tx.vin ++ [txin] ∧
      q.inputs = p.inputs ++
        [{ psktin with partial_sigs := [], final_script_sig := [],
                       final_script_witness := [] }] ∧
      q.inputs.length = q.tx.vin.length) := by
  constructor
  · unfold PartiallySignedTransaction.AddInput
    by_cases h : txin ∈ p.tx.vin <;> simp [h]
  · intro q hq
    unfold PartiallySignedTransaction.AddInput at hq
    by_cases h : txin ∈ p.tx.vin
    · simp [h] at hq
    · simp [h] at hq
      subst hq
      refine ⟨rfl, rfl, ?_⟩
      simp [hlen]

/-- Witness for C7: adding a fresh outpoint to `psktSigA`. -/
theorem C7_addinput_witness :
    (psktSigA.AddInput txinNew default = none ↔ txinNew ∈ psktSigA.tx.vin) ∧
    (∀ q, psktSigA.AddInput txinNew default = some q →
      q.tx.vin = psktSigA.tx.vin ++ [txinNew] ∧
      q.inputs = psktSigA.inputs ++
        [{ (default : PSKTInput) with partial_sigs := [], final_script_sig := [],
                                      final_script_witness := [] }] ∧
      q.inputs.length = q.tx.vin.length) :=
  C7_addinput_rejects_equal_txin psktSigA txinNew default (by decide)

/-! ## Claim C8: AddInput strips signature data -/

/-- **C8.** The record a successful `AddInput` appends equals the passed-in
record with `partial_sigs` emptied, `final_script_sig` emptied and
`final_script_witness` nulled — all signature data carried on the added
input is discarded; every other field is kept. -/
theorem C8_addinput_strips_sigdata (p : PartiallySignedTransaction)
    (txin : CTxIn) (psktin : PSKTInput) (q : PartiallySignedTransaction)
    (h : p.AddInput txin psktin = some q) :
    q.inputs.getD p.inputs.length default =
      { psktin with partial_sigs := [], final_script_sig := [],
                    final_script_witness := [] } := by
  unfold PartiallySignedTransaction.AddInput at h
  by_cases hm : txin ∈ p.tx.vin
  · simp [hm] at h
  · simp [hm] at h
    subst h
    rw [List.getD_eq_getElem?_getD, List.getElem?_concat_length]
    rfl

/-- Witness for C8: joining `psktinLoaded` onto `psktSigA` keeps its redeem
script but drops its signatures and final scripts. -/
theorem C8_addinput_strips_witness :
    psktJoined.inputs.getD psktSigA.inputs.length default =
      { psktinLoaded with partial_sigs := [], final_script_sig := [],
                          final_script_witness := [] } :=
  C8_addinput_strips_sigdata psktSigA txinNew psktinLoaded psktJoined (by decide)

/-! ## Claim C9: Merge never touches proprietary records -/

/-- **C9.** A successful `Merge` leaves every proprietary record set of the
receiver — global, per-input and per-output — exactly as it was, and
incorporates no proprietary record of the argument. -/
theorem C9_merge_preserves_proprietary (a b c : PartiallySignedTransaction)
    (h : a.Merge b = some c) :
    c.m_proprietary = a.m_proprietary ∧
    (∀ i, (c.inputs.getD i default).proprietary =
      (a.inputs.getD i default).proprietary) ∧
    (∀ i, (c.outputs.getD i default).proprietary =
      (a.outputs.getD i default).proprietary) := by
  unfold PartiallySignedTransaction.Merge at h
  by_cases hh : a.tx.GetHash = b.tx.GetHash
  · simp [hh] at h
    subst h
    refine ⟨rfl, ?_, ?_⟩
    · intro i
      rw [getD_mapIdx]
      cases hx : a.inputs[i]? with
      | none => simp [List.getD_eq_getElem?_getD, hx]
      | some v => simp [List.getD_eq_getElem?_getD, hx, PSKTInput.Merge]
    · intro i
      rw [getD_mapIdx]
      cases hx : a.outputs[i]? with
      | none => simp [List.getD_eq_getElem?_getD, hx]
      | some v => simp [List.getD_eq_getElem?_getD, hx, PSKTOutput.Merge]
  · simp [hh] at h

/-- Witness for C9 at a concrete successful merge. -/
theorem C9_merge_preserves_proprietary_witness :
    ((psktSigA.Merge psktSigC).getD default).m_proprietary = psktSigA.m_proprietary ∧
    (∀ i, (((psktSigA.Merge psktSigC).getD default).inputs.getD i default).proprietary =
      (psktSigA.inputs.getD i default).proprietary) ∧
    (∀ i, (((psktSigA.Merge psktSigC).getD default).outputs.getD i default).proprietary =
      (psktSigA.outputs.getD i default).proprietary) :=
  C9_merge_preserves_proprietary psktSigA psktSigC
    ((psktSigA.Merge psktSigC).getD default) (by decide)

/-! ## Claim C10: decodepskt's unguarded non-witness-UTXO access -/

/-- **C10.** A PSKT in the decoder's image can reference an out-of-range
output of its `non_witness_utxo`: `psktBadPrevout` passes every structural
check the decoder performs, carries a non-witness UTXO on input 0, and the
unguarded `decodepskt` access `vout[prevout.n]` falls outside the
predecessor's output vector. -/
theorem C10_decodepskt_out_of_range :
    DecodableShape psktBadPrevout ∧
    (psktBadPrevout.inputs.getD 0 default).non_witness_utxo.isSome = true ∧
    decodepsktNonWitnessAccess psktBadPrevout 0 = none := by
  exact ⟨by decide, by decide, by decide⟩

/-! ## Claim C1: merge commutativity in canonical form -/

/-- **C1 (counterexample).** Two well-formed PSKTs over the same unsigned
transaction whose inputs carry conflicting partial signatures for the same
key merge non-commutatively even in canonical unordered form: the
first-writer-wins map union keeps the receiver's value on the shared key,
so the two merge orders disagree on `partial_sigs`. -/
theorem C1_counterexample :
    WellFormed psktSigA ∧ WellFormed psktSigB ∧ psktSigA.tx = psktSigB.tx ∧
    (psktSigA.Merge psktSigB).isSome = true ∧
    (psktSigB.Merge psktSigA).isSome = true ∧
    ¬ PartiallySignedTransaction.CanonEq ((psktSigA.Merge psktSigB).getD default)
        ((psktSigB.Merge psktSigA).getD default) := by
  refine ⟨by decide, by decide, by decide, by decide, by decide, ?_⟩
  intro h
  have h1 := (h.2.2.1 0).2.2.1 7
  revert h1
  decide


/-! ## Claim C3: SignPSKTInput failure conditions -/

theorem signOnInput_fail (produce : SignatureData → List Nat → SignatureData)
    (txin : CTxIn) (input : PSKTInput) (finalize : Bool)
    (hns : PSKTInputSigned input = false)
    (hfail :
      (input.non_witness_utxo = none ∧ input.witness_utxo.IsNull = true) ∨
      (∃ nwu, input.non_witness_utxo = some nwu ∧
        (txin.prevout.n ≥ nwu.vout.length ∨ nwu.GetHash ≠ txin.prevout.hash)) ∨
      (input.non_witness_utxo = none ∧ input.witness_utxo.IsNull = false ∧
        (produce { input.FillSignatureData {} with witness := false }
          input.witness_utxo.scriptPubKey).witness = false)) :
    signOnInput produce txin input finalize = (false, input, {}) := by
  unfold signOnInput utxoResolve
  rcases hfail with ⟨h1, h2⟩ | ⟨nwu, h1, h2⟩ | ⟨h1, h2, h3⟩
  · simp [hns, h1, h2]
  · by_cases hlen : txin.prevout.n ≥ nwu.vout.length
    · simp [hns, h1, hlen]
    · rcases h2 with h2 | h2
      · exact absurd h2 hlen
      · simp [hns, h1, hlen, h2]
  · simp [hns, h1, h2, h3]

/-- **C3.** For a not-yet-signed input, `SignPSKTInput` returns `false`
without writing anything into the PSKT (and leaves the missing report
empty) whenever: the input has neither UTXO form; or the UTXO comes from
`non_witness_utxo` and the prevout index is out of range of that
transaction's outputs or that transaction's txid differs from
`prevout.hash`; or the UTXO comes from `witness_utxo` (no
`non_witness_utxo`) and the signing provider produced no witness
signature. -/
theorem C3_sign_input_failure (produce : SignatureData → List Nat → SignatureData)
    (pskt : PartiallySignedTransaction) (index : Nat) (finalize : Bool)
    (hns : PSKTInputSigned (pskt.inputs.getD index default) = false)
    (hfail :
      ((pskt.inputs.getD index default).non_witness_utxo = none ∧
        (pskt.inputs.getD index default).witness_utxo.IsNull = true) ∨
      (∃ nwu, (pskt.inputs.getD index default).non_witness_utxo = some nwu ∧
        ((pskt.tx.vin.getD index default).prevout.n ≥ nwu.vout.length ∨
          nwu.GetHash ≠ (pskt.tx.vin.getD index default).prevout.hash)) ∨
      ((pskt.inputs.getD index default).non_witness_utxo = none ∧
        (pskt.inputs.getD index default).witness_utxo.IsNull = false ∧
        (produce
          { (pskt.inputs.getD index default).FillSignatureData {} with witness := false }
          (pskt.inputs.getD index default).witness_utxo.scriptPubKey).witness = false)) :
    SignPSKTInput produce pskt index finalize = (false, pskt, {}) := by
  have hr := signOnInput_fail produce (pskt.tx.vin.getD index default)
    (pskt.inputs.getD index default) finalize hns hfail
  show (_, { pskt with inputs := pskt.inputs.set index _ }, _) =
    (false, pskt, ({} : MissingInfo))
  rw [hr]
  rw [set_getD_self]

/-- Witness for C3: an input with no UTXO information at all fails and the
PSKT is untouched. -/
theorem C3_sign_input_failure_witness :
    SignPSKTInput dummyProduce psktNoUtxo 0 true = (false, psktNoUtxo, {}) :=
  C3_sign_input_failure dummyProduce psktNoUtxo 0 true (by decide)
    (Or.inl (by constructor <;> decide))

/-! ## Claim C4: FinalizePSKT idempotence — support lemmas -/

attribute [ext] COutPoint CTxIn CTxOut CMutableTransaction PSKTInput PSKTOutput
attribute [ext] PartiallySignedTransaction TaprootSpendData SignatureData
attribute [ext] MissingInfo PSKTInputAnalysis PSKTAnalysis

theorem foldl_insertKV_present {α β γ : Type} [DecidableEq α] (f : γ → α × β)
    (l : List γ) (m : List (α × β))
    (h : ∀ e ∈ l, (alookup (f e).1 m).isSome) :
    l.foldl (fun acc e => insertKV acc (f e).1 (f e).2) m = m := by
  induction l generalizing m with
  | nil => rfl
  | cons e es ih =>
      have he : insertKV m (f e).1 (f e).2 = m := by
        simp [insertKV, h e (List.mem_cons_self e es)]
      show es.foldl _ (insertKV m (f e).1 (f e).2) = m
      rw [he]
      exact ih m (fun x hx => h x (List.mem_cons_of_mem _ hx))

theorem mem_foldl_insertKV {α β γ : Type} [DecidableEq α] (f : γ → α × β)
    (l : List γ) (m : List (α × β)) (p : α × β)
    (h : p ∈ l.foldl (fun acc e => insertKV acc (f e).1 (f e).2) m) :
    p ∈ m ∨ ∃ e ∈ l, p = f e := by
  induction l generalizing m with
  | nil => exact Or.inl h
  | cons e es ih =>
      have h' : p ∈ es.foldl (fun acc e => insertKV acc (f e).1 (f e).2)
          (insertKV m (f e).1 (f e).2) := h
      rcases ih _ h' with hm | ⟨q, hq, he⟩
      · unfold insertKV at hm
        by_cases hs : (alookup (f e).1 m).isSome
        · simp [hs] at hm
          exact Or.inl hm
        · simp [hs] at hm
          rcases hm with hm | hm
          · exact Or.inl hm
          · exact Or.inr ⟨e, List.mem_cons_self e es, by rw [hm]⟩
      · exact Or.inr ⟨q, List.mem_cons_of_mem _ hq, he⟩

theorem mapInsertAll_nil_absorb {α β : Type} [DecidableEq α] (m : List (α × β)) :
    mapInsertAll m (mapInsertAll [] m) = m := by
  apply mapInsertAll_subset
  intro p hp
  have h1 := alookup_isSome_of_mem hp
  rw [alookup_mapInsertAll] at h1
  simpa [alookup] using h1

/-- `PSKTInputSigned input = false` unpacked. -/
theorem not_signed_iff (input : PSKTInput) :
    PSKTInputSigned input = false ↔
      input.final_script_sig = [] ∧ input.final_script_witness = [] := by
  unfold PSKTInputSigned
  simp [List.isEmpty_iff]

/-- The `SignatureData` that `FillSignatureData` builds from a fresh bundle
for a not-yet-signed input, field by field. -/
theorem fill_empty_fields (inp : PSKTInput) (hsig : PSKTInputSigned inp = false) :
    inp.FillSignatureData {} =
      { complete := false
        witness := false
        scriptSig := []
        scriptWitness := []
        signatures := mapInsertAll [] inp.partial_sigs
        misc_pubkeys := inp.hd_keypaths.foldl (fun m kp => insertKV m kp.1 (kp.1, kp.2)) []
        redeem_script := inp.redeem_script
        witness_script := inp.witness_script
        taproot_key_path_sig := inp.m_tap_key_sig
        taproot_script_sigs := mapInsertAll [] inp.m_tap_script_sigs
        tr_spenddata :=
          { internal_key := inp.m_tap_internal_key
            merkle_root := inp.m_tap_merkle_root
            scripts := mapInsertAll [] inp.m_tap_scripts }
        taproot_misc_pubkeys := mapInsertAll [] inp.m_tap_bip32_paths
        missing_pubkeys := []
        missing_sigs := []
        missing_redeem_script := 0
        missing_witness_script := 0 } := by
  obtain ⟨h1, h2⟩ := (not_signed_iff inp).mp hsig
  unfold PSKTInput.FillSignatureData
  split
  · rename_i hcond
    exact absurd hcond (by simp [h1, h2])
  · refine SignatureData.ext ?_ ?_ ?_ ?_ ?_ ?_ ?_ ?_ ?_ ?_ ?_ ?_ ?_ ?_ ?_ ?_ <;>
      first
        | rfl
        | (split <;> simp_all [List.isEmpty_iff])

/-- `dummyProduce` never changes the fields `FromSignatureData` merges back,
nor the two missing script hashes. -/
theorem dummyProduce_preserves (sd : SignatureData) (spk : List Nat) :
    (dummyProduce sd spk).signatures = sd.signatures ∧
    (dummyProduce sd spk).redeem_script = sd.redeem_script ∧
    (dummyProduce sd spk).witness_script = sd.witness_script ∧
    (dummyProduce sd spk).misc_pubkeys = sd.misc_pubkeys ∧
    (dummyProduce sd spk).taproot_key_path_sig = sd.taproot_key_path_sig ∧
    (dummyProduce sd spk).taproot_script_sigs = sd.taproot_script_sigs ∧
    (dummyProduce sd spk).tr_spenddata = sd.tr_spenddata ∧
    (dummyProduce sd spk).taproot_misc_pubkeys = sd.taproot_misc_pubkeys ∧
    (dummyProduce sd spk).missing_redeem_script = sd.missing_redeem_script ∧
    (dummyProduce sd spk).missing_witness_script = sd.missing_witness_script := by
  unfold dummyProduce
  split
  · simp
  · split <;> ((try dsimp only); (try split)) <;> simp

/-- When `dummyProduce` reports completion from an incomplete bundle, it has
appended nothing to the missing reports. -/
theorem dummyProduce_complete_missing (sd : SignatureData) (spk : List Nat)
    (h0 : sd.complete = false) (h : (dummyProduce sd spk).complete = true) :
    (dummyProduce sd spk).missing_pubkeys = sd.missing_pubkeys ∧
    (dummyProduce sd spk).missing_sigs = sd.missing_sigs := by
  unfold dummyProduce at h ⊢
  split at h
  · simp_all
  · split at h <;> ((try dsimp only at h ⊢); (try split at h)) <;> simp_all

/-- Writing back an incomplete bundle whose merge-read fields are exactly
what `FillSignatureData` copied out of the input changes nothing. -/
theorem fromSig_fill_noop (inp : PSKTInput) (s : SignatureData)
    (hc : s.complete = false)
    (h1 : s.signatures = mapInsertAll [] inp.partial_sigs)
    (h2 : s.redeem_script = inp.redeem_script)
    (h3 : s.witness_script = inp.witness_script)
    (h4 : s.misc_pubkeys =
      inp.hd_keypaths.foldl (fun m kp => insertKV m kp.1 (kp.1, kp.2)) [])
    (h5 : s.taproot_key_path_sig = inp.m_tap_key_sig)
    (h6 : s.taproot_script_sigs = mapInsertAll [] inp.m_tap_script_sigs)
    (h7 : s.tr_spenddata.internal_key = inp.m_tap_internal_key)
    (h8 : s.tr_spenddata.merkle_root = inp.m_tap_merkle_root)
    (h9 : s.tr_spenddata.scripts = mapInsertAll [] inp.m_tap_scripts)
    (h10 : s.taproot_misc_pubkeys = mapInsertAll [] inp.m_tap_bip32_paths) :
    inp.FromSignatureData s = inp := by
  unfold PSKTInput.FromSignatureData
  rw [hc]
  simp only [Bool.false_eq_true, if_false]
  refine PSKTInput.ext rfl rfl ?_ rfl ?_ ?_ ?_ rfl rfl rfl rfl rfl rfl ?_ ?_ ?_ ?_ ?_ ?_ rfl rfl
  · dsimp only
    rw [h1, mapInsertAll_nil_absorb]
  · dsimp only
    simp [h2]
  · dsimp only
    simp [h3]
  · dsimp only
    rw [h4]
    refine foldl_insertKV_present
      (fun (e : Nat × Nat × List Nat) => (e.2.1, e.2.2)) _ _ ?_
    intro e he
    rcases mem_foldl_insertKV (fun (kp : Nat × List Nat) => (kp.1, (kp.1, kp.2)))
      inp.hd_keypaths [] e he with h | ⟨kp, hkp, he2⟩
    · cases h
    · rw [he2]
      exact alookup_isSome_of_mem hkp
  · dsimp only
    simp [h5]
  · dsimp only
    rw [h6, mapInsertAll_nil_absorb]
  · dsimp only
    rw [h9, mapInsertAll_nil_absorb]
  · dsimp only
    rw [h10, mapInsertAll_nil_absorb]
  · dsimp only
    simp [h7]
  · dsimp only
    simp [h8]

theorem signed_set_witness_utxo (x : PSKTInput) (u : CTxOut) :
    PSKTInputSigned { x with witness_utxo := u } = PSKTInputSigned x := rfl

theorem fill_set_witness_utxo (x : PSKTInput) (u : CTxOut) (sd : SignatureData) :
    PSKTInput.FillSignatureData { x with witness_utxo := u } sd =
      x.FillSignatureData sd := rfl

theorem set_witness_utxo_self (x : PSKTInput) (u : CTxOut) (h : x.witness_utxo = u) :
    ({ x with witness_utxo := u } : PSKTInput) = x := by
  subst h
  rfl

theorem flatten_push_nil (keys : List Nat) (f : Nat → List Nat) :
    ((keys.map (fun k => 72 :: f k)).flatten = []) ↔ keys = [] := by
  cases keys <;> simp

/-- A resolved UTXO resolves the same way after the input absorbs signing
results: the non-witness form is untouched and the witness form is either
untouched or overwritten with the very UTXO that was resolved. -/
theorem utxoResolve_stable (txin : CTxIn) (inp inp' : PSKTInput) (utxo : CTxOut)
    (req : Bool) (hres : utxoResolve txin inp = some (utxo, req))
    (hnw : inp'.non_witness_utxo = inp.non_witness_utxo)
    (hw : inp'.witness_utxo = utxo ∨ inp'.witness_utxo = inp.witness_utxo) :
    utxoResolve txin inp' = some (utxo, req) := by
  unfold utxoResolve at hres ⊢
  rw [hnw]
  cases hn : inp.non_witness_utxo with
  | some nwu =>
      rw [hn] at hres
      exact hres
  | none =>
      rw [hn] at hres
      by_cases hnull : inp.witness_utxo.IsNull = true
      · simp [hnull] at hres
      · simp [hnull] at hres
        obtain ⟨hu, hr⟩ := hres
        have hw' : inp'.witness_utxo = utxo := by
          rcases hw with hw | hw
          · exact hw
          · rw [hw, hu]
        have hun : utxo.IsNull = false := by
          rw [← hu]
          simpa using hnull
        have : inp'.witness_utxo.IsNull = false := by rw [hw', hun]
        simp [this, hw', hr, hun]

/-- The cleared form a complete write-back leaves behind. -/
def clearedInput (inp : PSKTInput) : PSKTInput :=
  { inp with partial_sigs := [], hd_keypaths := [], redeem_script := [],
             witness_script := [] }

theorem fromSig_complete_empty_scripts (inp : PSKTInput) (s : SignatureData)
    (hc : s.complete = true) (hss : s.scriptSig = []) (hsw : s.scriptWitness = []) :
    inp.FromSignatureData s = clearedInput inp := by
  unfold PSKTInput.FromSignatureData clearedInput
  rw [hc]
  simp [hss, hsw]

theorem fromSig_complete_cleared (x : PSKTInput) (s : SignatureData)
    (hc : s.complete = true) (hss : s.scriptSig = []) (hsw : s.scriptWitness = [])
    (hp : x.partial_sigs = []) (hh : x.hd_keypaths = [])
    (hr : x.redeem_script = []) (hw : x.witness_script = []) :
    x.FromSignatureData s = x := by
  unfold PSKTInput.FromSignatureData
  rw [hc]
  simp only [if_true]
  refine PSKTInput.ext rfl rfl ?_ rfl ?_ ?_ ?_ ?_ ?_ rfl rfl rfl rfl rfl rfl rfl rfl rfl rfl rfl rfl
  · exact hp.symm
  · exact hr.symm
  · exact hw.symm
  · exact hh.symm
  · dsimp only
    simp [hss]
  · dsimp only
    simp [hsw]

theorem signOnInput_resolve_none (produce : SignatureData → List Nat → SignatureData)
    (txin : CTxIn) (input : PSKTInput) (finalize : Bool)
    (h1 : PSKTInputSigned input = false)
    (h2 : utxoResolve txin input = none) :
    signOnInput produce txin input finalize = (false, input, {}) := by
  unfold signOnInput
  rw [h2]
  simp [h1]

/-- One successful, finalizing run of the per-input body, written out. -/
theorem signOnInput_run (produce : SignatureData → List Nat → SignatureData)
    (txin : CTxIn) (input : PSKTInput) (utxo : CTxOut) (req : Bool)
    (h1 : PSKTInputSigned input = false)
    (h2 : utxoResolve txin input = some (utxo, req)) :
    signOnInput produce txin input true =
      (let s := produce { input.FillSignatureData {} with witness := false }
         utxo.scriptPubKey
       if req = true ∧ s.witness = false then (false, input, {})
       else
         (s.complete,
          (if s.witness
           then { input.FromSignatureData s with witness_utxo := utxo }
           else input.FromSignatureData s),
          { missing_pubkeys := s.missing_pubkeys, missing_sigs := s.missing_sigs,
            missing_redeem_script := s.missing_redeem_script,
            missing_witness_script := s.missing_witness_script })) := by
  unfold signOnInput
  rw [h2]
  simp [h1]

/-- The witness-multisig arm of `dummyProduce` on an incomplete bundle,
written as a single conditional. -/
theorem dummyProduce_eq_wm (sd : SignatureData) (spk keys : List Nat)
    (hc : sd.complete = false)
    (hcl : classifyScript spk = ScriptClass.witnessMulti keys) :
    dummyProduce sd spk =
      if (keys.filter (fun k => (alookup k sd.signatures).isNone)).isEmpty then
        { sd with
          complete := true
          witness := true
          scriptWitness := keys.map (sigBytesFor sd) }
      else
        { sd with
          witness := true
          missing_sigs := sd.missing_sigs ++
            keys.filter (fun k => (alookup k sd.signatures).isNone) } := by
  unfold dummyProduce
  rw [hc, hcl]
  rfl

/-- The legacy-multisig arm of `dummyProduce` on an incomplete bundle. -/
theorem dummyProduce_eq_lm (sd : SignatureData) (spk keys : List Nat)
    (hc : sd.complete = false)
    (hcl : classifyScript spk = ScriptClass.legacyMulti keys) :
    dummyProduce sd spk =
      if (keys.filter (fun k => (alookup k sd.signatures).isNone)).isEmpty then
        { sd with
          complete := true
          scriptSig := (keys.map (fun k => 72 :: sigBytesFor sd k)).flatten }
      else
        { sd with
          missing_sigs := sd.missing_sigs ++
            keys.filter (fun k => (alookup k sd.signatures).isNone) } := by
  unfold dummyProduce
  rw [hc, hcl]
  rfl

/-- The pay-to-keyhash arm of `dummyProduce` on an incomplete bundle. -/
theorem dummyProduce_eq_kh (sd : SignatureData) (spk kids : List Nat)
    (hc : sd.complete = false)
    (hcl : classifyScript spk = ScriptClass.legacyKeyHash kids) :
    dummyProduce sd spk =
      if (kids.filter (fun k => (alookup k sd.misc_pubkeys).isNone)).isEmpty ∧
          ((kids.filter (fun k => (alookup k sd.misc_pubkeys).isSome)).filter
            (fun k => (alookup k sd.signatures).isNone)).isEmpty then
        { sd with
          complete := true
          scriptSig := (kids.map (fun k => 72 :: sigBytesFor sd k)).flatten }
      else
        { sd with
          missing_pubkeys := sd.missing_pubkeys ++
            kids.filter (fun k => (alookup k sd.misc_pubkeys).isNone)
          missing_sigs := sd.missing_sigs ++
            (kids.filter (fun k => (alookup k sd.misc_pubkeys).isSome)).filter
              (fun k => (alookup k sd.signatures).isNone) } := by
  unfold dummyProduce
  rw [hc, hcl]
  rfl

/-- On unspendable or unsolvable scripts `dummyProduce` returns its input. -/
theorem dummyProduce_eq_stuck (sd : SignatureData) (spk : List Nat)
    (hc : sd.complete = false)
    (hcl : classifyScript spk = ScriptClass.unspendableClass ∨
      classifyScript spk = ScriptClass.unsolvable) :
    dummyProduce sd spk = sd := by
  unfold dummyProduce
  rcases hcl with hcl | hcl <;> rw [hc, hcl] <;> rfl

/-- `signOnInput_run` with the produced bundle abstracted. -/
theorem signOnInput_run2 (produce : SignatureData → List Nat → SignatureData)
    (txin : CTxIn) (x : PSKTInput) (utxo : CTxOut) (req : Bool)
    (t : SignatureData)
    (h1 : PSKTInputSigned x = false)
    (h2 : utxoResolve txin x = some (utxo, req))
    (ht : produce { x.FillSignatureData {} with witness := false }
      utxo.scriptPubKey = t) :
    signOnInput produce txin x true =
      if req = true ∧ t.witness = false then (false, x, {})
      else
        (t.complete,
         (if t.witness
          then { x.FromSignatureData t with witness_utxo := utxo }
          else x.FromSignatureData t),
         { missing_pubkeys := t.missing_pubkeys, missing_sigs := t.missing_sigs,
           missing_redeem_script := t.missing_redeem_script,
           missing_witness_script := t.missing_witness_script }) := by
  subst ht
  exact signOnInput_run produce txin x utxo req h1 h2

/-- A finalizing run on a cleared input whose bundle comes back complete with
empty final forms and an empty missing report is the identity. -/
theorem signOnInput_complete_stable
    (produce : SignatureData → List Nat → SignatureData)
    (txin : CTxIn) (x : PSKTInput) (utxo : CTxOut) (req : Bool)
    (t : SignatureData)
    (h1 : PSKTInputSigned x = false)
    (h2 : utxoResolve txin x = some (utxo, req))
    (ht : produce { x.FillSignatureData {} with witness := false }
      utxo.scriptPubKey = t)
    (hg : ¬(req = true ∧ t.witness = false))
    (hc : t.complete = true) (hss : t.scriptSig = []) (hsw : t.scriptWitness = [])
    (hm1 : t.missing_pubkeys = []) (hm2 : t.missing_sigs = [])
    (hm3 : t.missing_redeem_script = 0) (hm4 : t.missing_witness_script = 0)
    (hxp : x.partial_sigs = []) (hxh : x.hd_keypaths = [])
    (hxr : x.redeem_script = []) (hxw : x.witness_script = [])
    (hwu : t.witness = true → x.witness_utxo = utxo) :
    signOnInput produce txin x true = (true, x, {}) := by
  rw [signOnInput_run2 produce txin x utxo req t h1 h2 ht, if_neg hg]
  have hfc : x.FromSignatureData t = x :=
    fromSig_complete_cleared x t hc hss hsw hxp hxh hxr hxw
  by_cases hw : t.witness = true
  · rw [if_pos hw, hfc, set_witness_utxo_self x utxo (hwu hw), hc, hm1, hm2, hm3,
      hm4]
  · rw [if_neg hw, hfc, hc, hm1, hm2, hm3, hm4]

/-- Per-input fixed point of finalization: running the dummy-provider
finalizing body a second time reproduces the first result exactly —
same flag, same record, same missing report. -/
theorem signOnInput_idem (txin : CTxIn) (inp : PSKTInput) :
    signOnInput dummyProduce txin (signOnInput dummyProduce txin inp true).2.1 true =
      signOnInput dummyProduce txin inp true := by
  by_cases hs : PSKTInputSigned inp = true
  · have hr : signOnInput dummyProduce txin inp true = (true, inp, {}) := by
      unfold signOnInput
      simp [hs]
    rw [hr]
    exact hr
  · have hs' : PSKTInputSigned inp = false := by simpa using hs
    rcases hres : utxoResolve txin inp with _ | ⟨utxo, req⟩
    · have hr := signOnInput_resolve_none dummyProduce txin inp true hs' hres
      rw [hr]
      exact hr
    · have hrun := signOnInput_run dummyProduce txin inp utxo req hs' hres
      set s := dummyProduce { inp.FillSignatureData {} with witness := false }
        utxo.scriptPubKey with hsdef
      have hfill := fill_empty_fields inp hs'
      have hsigc : ({ inp.FillSignatureData {} with
          witness := false } : SignatureData).complete = false := by
        rw [hfill]
      by_cases hguard : req = true ∧ s.witness = false
      · rw [if_pos hguard] at hrun
        rw [hrun]
        exact hrun
      · rw [if_neg hguard] at hrun
        obtain ⟨p1, p2, p3, p4, p5, p6, p7, p8, p9, p10⟩ :=
          dummyProduce_preserves
            { inp.FillSignatureData {} with witness := false } utxo.scriptPubKey
        rw [← hsdef] at p1 p2 p3 p4 p5 p6 p7 p8 p9 p10
        have e1 : s.signatures = mapInsertAll [] inp.partial_sigs := by rw [p1, hfill]
        have e2 : s.redeem_script = inp.redeem_script := by rw [p2, hfill]
        have e3 : s.witness_script = inp.witness_script := by rw [p3, hfill]
        have e4 : s.misc_pubkeys =
            inp.hd_keypaths.foldl (fun m kp => insertKV m kp.1 (kp.1, kp.2)) [] := by
          rw [p4, hfill]
        have e5 : s.taproot_key_path_sig = inp.m_tap_key_sig := by rw [p5, hfill]
        have e6 : s.taproot_script_sigs = mapInsertAll [] inp.m_tap_script_sigs := by
          rw [p6, hfill]
        have e7 : s.tr_spenddata.internal_key = inp.m_tap_internal_key := by
          rw [p7, hfill]
        have e8 : s.tr_spenddata.merkle_root = inp.m_tap_merkle_root := by
          rw [p7, hfill]
        have e9 : s.tr_spenddata.scripts = mapInsertAll [] inp.m_tap_scripts := by
          rw [p7, hfill]
        have e10 : s.taproot_misc_pubkeys = mapInsertAll [] inp.m_tap_bip32_paths := by
          rw [p8, hfill]
        by_cases hcomp : s.complete = true
        · -- the bundle became complete
          have hmi : ({ missing_pubkeys := s.missing_pubkeys, missing_sigs := s.missing_sigs, missing_redeem_script := s.missing_redeem_script, missing_witness_script := s.missing_witness_script } : MissingInfo) = {} := by
            obtain ⟨m1, m2⟩ := dummyProduce_complete_missing
              { inp.FillSignatureData {} with witness := false } utxo.scriptPubKey
              hsigc (by rw [← hsdef]; exact hcomp)
            rw [← hsdef] at m1 m2
            refine MissingInfo.ext ?_ ?_ ?_ ?_
            · dsimp only
              rw [m1, hfill]
            · dsimp only
              rw [m2, hfill]
            · dsimp only
              rw [p9, hfill]
            · dsimp only
              rw [p10, hfill]
          obtain ⟨f1, f2⟩ := (not_signed_iff inp).mp hs'
          by_cases hfin : s.scriptSig = [] ∧ s.scriptWitness = []
          · -- complete but with empty final forms: the script demands nothing
            obtain ⟨hss, hsw⟩ := hfin
            have h2 : inp.FromSignatureData s = clearedInput inp :=
              fromSig_complete_empty_scripts inp s hcomp hss hsw
            cases hclass : classifyScript utxo.scriptPubKey with
            | witnessMulti keys =>
                have hdp := dummyProduce_eq_wm _ utxo.scriptPubKey keys hsigc hclass
                have hfcond : (keys.filter (fun k => (alookup k
                    ({ inp.FillSignatureData {} with witness := false } :
                      SignatureData).signatures).isNone)).isEmpty = true := by
                  by_contra hfe
                  have hcf : s.complete = false := by
                    rw [hsdef, hdp, if_neg hfe]
                    exact hsigc
                  simp [hcf] at hcomp
                have hsw2 : s.scriptWitness = keys.map (sigBytesFor
                    ({ inp.FillSignatureData {} with witness := false } :
                      SignatureData)) := by
                  rw [hsdef, hdp, if_pos hfcond]
                have hkeys : keys = [] := List.map_eq_nil_iff.mp (hsw2.symm.trans hsw)
                subst hkeys
                have hwit : s.witness = true := by
                  rw [hsdef, hdp, if_pos hfcond]
                have h3 : (if s.witness = true
                    then { inp.FromSignatureData s with witness_utxo := utxo }
                    else inp.FromSignatureData s) =
                    { clearedInput inp with witness_utxo := utxo } := by
                  rw [if_pos hwit, h2]
                rw [h3] at hrun
                rw [hrun]
                have hs3 : PSKTInputSigned
                    ({ clearedInput inp with witness_utxo := utxo } : PSKTInput) =
                    false := hs'
                have hres3 : utxoResolve txin
                    ({ clearedInput inp with witness_utxo := utxo } : PSKTInput) =
                    some (utxo, req) :=
                  utxoResolve_stable txin inp _ utxo req hres rfl (Or.inl rfl)
                have hfill3 := fill_empty_fields
                  ({ clearedInput inp with witness_utxo := utxo } : PSKTInput) hs3
                have hsigc3 : ({ PSKTInput.FillSignatureData
                    { clearedInput inp with witness_utxo := utxo } {} with
                    witness := false } : SignatureData).complete = false := by
                  rw [hfill3]
                have ht3 : dummyProduce
                    ({ PSKTInput.FillSignatureData
                        { clearedInput inp with witness_utxo := utxo } {} with
                      witness := false } : SignatureData) utxo.scriptPubKey =
                    { ({ PSKTInput.FillSignatureData
                        { clearedInput inp with witness_utxo := utxo } {} with
                      witness := false } : SignatureData) with
                      complete := true
                      witness := true
                      scriptWitness := [] } := by
                  rw [dummyProduce_eq_wm _ utxo.scriptPubKey [] hsigc3 hclass]
                  rfl
                have hsecond : signOnInput dummyProduce txin
                    ({ clearedInput inp with witness_utxo := utxo } : PSKTInput) true =
                    (true, { clearedInput inp with witness_utxo := utxo }, {}) := by
                  refine signOnInput_complete_stable dummyProduce txin _ utxo req _
                    hs3 hres3 ht3 ?_ rfl ?_ rfl ?_ ?_ ?_ ?_ rfl rfl rfl rfl ?_
                  · exact fun h => Bool.noConfusion h.2
                  · rw [hfill3]
                  · rw [hfill3]
                  · rw [hfill3]
                  · rw [hfill3]
                  · rw [hfill3]
                  · exact fun _ => rfl
                rw [hsecond, hcomp, hmi]
            | legacyMulti keys =>
                have hdp := dummyProduce_eq_lm _ utxo.scriptPubKey keys hsigc hclass
                have hfcond : (keys.filter (fun k => (alookup k
                    ({ inp.FillSignatureData {} with witness := false } :
                      SignatureData).signatures).isNone)).isEmpty = true := by
                  by_contra hfe
                  have hcf : s.complete = false := by
                    rw [hsdef, hdp, if_neg hfe]
                    exact hsigc
                  simp [hcf] at hcomp
                have hss2 : s.scriptSig = (keys.map (fun k => 72 :: sigBytesFor
                    ({ inp.FillSignatureData {} with witness := false } :
                      SignatureData) k)).flatten := by
                  rw [hsdef, hdp, if_pos hfcond]
                have hkeys : keys = [] :=
                  (flatten_push_nil keys _).mp (hss2.symm.trans hss)
                subst hkeys
                have hwitF : s.witness = false := by
                  rw [hsdef, hdp, if_pos hfcond]
                have hreq : req = false := by
                  cases req
                  · rfl
                  · exact absurd ⟨rfl, hwitF⟩ hguard
                have h3 : (if s.witness = true
                    then { inp.FromSignatureData s with witness_utxo := utxo }
                    else inp.FromSignatureData s) = clearedInput inp := by
                  rw [if_neg (by simp [hwitF]), h2]
                rw [h3] at hrun
                rw [hrun]
                have hs3 : PSKTInputSigned (clearedInput inp) = false := hs'
                have hres3 : utxoResolve txin (clearedInput inp) = some (utxo, req) :=
                  utxoResolve_stable txin inp _ utxo req hres rfl (Or.inr rfl)
                have hfill3 := fill_empty_fields (clearedInput inp) hs3
                have hsigc3 : ({ PSKTInput.FillSignatureData (clearedInput inp) {} with
                    witness := false } : SignatureData).complete = false := by
                  rw [hfill3]
                have ht3 : dummyProduce
                    ({ PSKTInput.FillSignatureData (clearedInput inp) {} with
                      witness := false } : SignatureData) utxo.scriptPubKey =
                    { ({ PSKTInput.FillSignatureData (clearedInput inp) {} with
                        witness := false } : SignatureData) with
                      complete := true
                      scriptSig := [] } := by
                  rw [dummyProduce_eq_lm _ utxo.scriptPubKey [] hsigc3 hclass]
                  rfl
                have hsecond : signOnInput dummyProduce txin (clearedInput inp) true =
                    (true, clearedInput inp, {}) := by
                  refine signOnInput_complete_stable dummyProduce txin _ utxo req _
                    hs3 hres3 ht3 ?_ rfl rfl ?_ ?_ ?_ ?_ ?_ rfl rfl rfl rfl ?_
                  · exact fun h => Bool.noConfusion (hreq ▸ h.1)
                  · rw [hfill3]
                  · rw [hfill3]
                  · rw [hfill3]
                  · rw [hfill3]
                  · rw [hfill3]
                  · exact fun h => Bool.noConfusion h
                rw [hsecond, hcomp, hmi]
            | legacyKeyHash kids =>
                have hdp := dummyProduce_eq_kh _ utxo.scriptPubKey kids hsigc hclass
                have hfcond : (kids.filter (fun k => (alookup k
                      ({ inp.FillSignatureData {} with witness := false } :
                        SignatureData).misc_pubkeys).isNone)).isEmpty = true ∧
                    ((kids.filter (fun k => (alookup k
                      ({ inp.FillSignatureData {} with witness := false } :
                        SignatureData).misc_pubkeys).isSome)).filter
                      (fun k => (alookup k
                        ({ inp.FillSignatureData {} with witness := false } :
                          SignatureData).signatures).isNone)).isEmpty = true := by
                  by_contra hfe
                  have hcf : s.complete = false := by
                    rw [hsdef, hdp, if_neg hfe]
                    exact hsigc
                  simp [hcf] at hcomp
                have hss2 : s.scriptSig = (kids.map (fun k => 72 :: sigBytesFor
                    ({ inp.FillSignatureData {} with witness := false } :
                      SignatureData) k)).flatten := by
                  rw [hsdef, hdp, if_pos hfcond]
                have hkids : kids = [] :=
                  (flatten_push_nil kids _).mp (hss2.symm.trans hss)
                subst hkids
                have hwitF : s.witness = false := by
                  rw [hsdef, hdp, if_pos hfcond]
                have hreq : req = false := by
                  cases req
                  · rfl
                  · exact absurd ⟨rfl, hwitF⟩ hguard
                have h3 : (if s.witness = true
                    then { inp.FromSignatureData s with witness_utxo := utxo }
                    else inp.FromSignatureData s) = clearedInput inp := by
                  rw [if_neg (by simp [hwitF]), h2]
                rw [h3] at hrun
                rw [hrun]
                have hs3 : PSKTInputSigned (clearedInput inp) = false := hs'
                have hres3 : utxoResolve txin (clearedInput inp) = some (utxo, req) :=
                  utxoResolve_stable txin inp _ utxo req hres rfl (Or.inr rfl)
                have hfill3 := fill_empty_fields (clearedInput inp) hs3
                have hsigc3 : ({ PSKTInput.FillSignatureData (clearedInput inp) {} with
                    witness := false } : SignatureData).complete = false := by
                  rw [hfill3]
                have ht3 : dummyProduce
                    ({ PSKTInput.FillSignatureData (clearedInput inp) {} with
                      witness := false } : SignatureData) utxo.scriptPubKey =
                    { ({ PSKTInput.FillSignatureData (clearedInput inp) {} with
                        witness := false } : SignatureData) with
                      complete := true
                      scriptSig := [] } := by
                  rw [dummyProduce_eq_kh _ utxo.scriptPubKey [] hsigc3 hclass]
                  rfl
                have hsecond : signOnInput dummyProduce txin (clearedInput inp) true =
                    (true, clearedInput inp, {}) := by
                  refine signOnInput_complete_stable dummyProduce txin _ utxo req _
                    hs3 hres3 ht3 ?_ rfl rfl ?_ ?_ ?_ ?_ ?_ rfl rfl rfl rfl ?_
                  · exact fun h => Bool.noConfusion (hreq ▸ h.1)
                  · rw [hfill3]
                  · rw [hfill3]
                  · rw [hfill3]
                  · rw [hfill3]
                  · rw [hfill3]
                  · exact fun h => Bool.noConfusion h
                rw [hsecond, hcomp, hmi]
            | unspendableClass =>
                have hseq : s.complete = false := by
                  rw [hsdef, dummyProduce_eq_stuck _ utxo.scriptPubKey hsigc
                    (Or.inl hclass)]
                  exact hsigc
                rw [hseq] at hcomp
                cases hcomp
            | unsolvable =>
                have hseq : s.complete = false := by
                  rw [hsdef, dummyProduce_eq_stuck _ utxo.scriptPubKey hsigc
                    (Or.inr hclass)]
                  exact hsigc
                rw [hseq] at hcomp
                cases hcomp
          · -- a non-empty final scriptSig or witness was produced: signed now
            have hsig2 : PSKTInputSigned (inp.FromSignatureData s) = true := by
              unfold PSKTInput.FromSignatureData
              rw [hcomp]
              simp only [if_true]
              rcases not_and_or.mp hfin with hne | hne
              · have hne' : ¬s.scriptSig.isEmpty = true := by
                  simpa [List.isEmpty_iff] using hne
                simp [PSKTInputSigned, hne', List.isEmpty_iff]
              · have hne' : ¬s.scriptWitness.isEmpty = true := by
                  simpa [List.isEmpty_iff] using hne
                simp [PSKTInputSigned, hne', List.isEmpty_iff]
            have hsig3 : PSKTInputSigned
                (if s.witness = true
                 then { inp.FromSignatureData s with witness_utxo := utxo }
                 else inp.FromSignatureData s) = true := by
              by_cases hw : s.witness = true
              · rw [if_pos hw, signed_set_witness_utxo]
                exact hsig2
              · rw [if_neg hw]
                exact hsig2
            rw [hrun]
            have hr2 : signOnInput dummyProduce txin
                (if s.witness = true
                 then { inp.FromSignatureData s with witness_utxo := utxo }
                 else inp.FromSignatureData s) true =
                (true,
                 (if s.witness = true
                  then { inp.FromSignatureData s with witness_utxo := utxo }
                  else inp.FromSignatureData s), {}) := by
              unfold signOnInput
              simp [hsig3]
            rw [hr2, hcomp, hmi]
        · -- the bundle stayed incomplete: the write-back is a no-op
          have hcomp' : s.complete = false := by simpa using hcomp
          have hfrom : inp.FromSignatureData s = inp :=
            fromSig_fill_noop inp s hcomp' e1 e2 e3 e4 e5 e6 e7 e8 e9 e10
          by_cases hw : s.witness = true
          · have h3 : (if s.witness = true
                then { inp.FromSignatureData s with witness_utxo := utxo }
                else inp.FromSignatureData s) =
                { inp with witness_utxo := utxo } := by
              rw [if_pos hw, hfrom]
            rw [h3] at hrun
            rw [hrun]
            have hs3 : PSKTInputSigned ({ inp with witness_utxo := utxo } : PSKTInput)
                = false := hs'
            have hres3 : utxoResolve txin ({ inp with witness_utxo := utxo } : PSKTInput)
                = some (utxo, req) :=
              utxoResolve_stable txin inp _ utxo req hres rfl (Or.inl rfl)
            rw [signOnInput_run dummyProduce txin _ utxo req hs3 hres3,
              fill_set_witness_utxo, ← hsdef]
            rw [if_neg hguard]
            have hfrom3 : PSKTInput.FromSignatureData
                ({ inp with witness_utxo := utxo } : PSKTInput) s =
                { inp with witness_utxo := utxo } :=
              fromSig_fill_noop _ s hcomp' e1 e2 e3 e4 e5 e6 e7 e8 e9 e10
            rw [if_pos hw, hfrom3, set_witness_utxo_self _ _ rfl]
          · have hw' : s.witness = false := by simpa using hw
            have h3 : (if s.witness = true
                then { inp.FromSignatureData s with witness_utxo := utxo }
                else inp.FromSignatureData s) = inp := by
              rw [if_neg hw, hfrom]
            rw [h3] at hrun
            rw [hrun]
            exact hrun

theorem set_past_length {α : Type} :
    ∀ (l : List α) (i : Nat) (a : α), l.length ≤ i → l.set i a = l
  | [], _, _, _ => rfl
  | x :: xs, 0, a, h => absurd h (by simp)
  | x :: xs, i + 1, a, h => by
      show x :: xs.set i a = x :: xs
      rw [set_past_length xs i a (by simpa using h)]

theorem fold_finStep_tx (l : List Nat) :
    ∀ acc : Bool × PartiallySignedTransaction,
      (l.foldl finStep acc).2.tx = acc.2.tx := by
  induction l with
  | nil => intro acc; rfl
  | cons i l2 ih =>
      intro acc
      rw [List.foldl_cons, ih]
      rfl

theorem fold_finStep_len (l : List Nat) :
    ∀ acc : Bool × PartiallySignedTransaction,
      (l.foldl finStep acc).2.inputs.length = acc.2.inputs.length := by
  induction l with
  | nil => intro acc; rfl
  | cons i l2 ih =>
      intro acc
      rw [List.foldl_cons, ih]
      simp [finStep, SignPSKTInput]

theorem fold_finStep_untouched (l : List Nat) :
    ∀ (acc : Bool × PartiallySignedTransaction) (j : Nat), j ∉ l →
      (l.foldl finStep acc).2.inputs.getD j default =
        acc.2.inputs.getD j default := by
  induction l with
  | nil => intro acc j _; rfl
  | cons i l2 ih =>
      intro acc j hj
      rw [List.foldl_cons, ih _ j (fun h => hj (List.mem_cons_of_mem i h))]
      exact getD_set_ne acc.2.inputs i j _ default
        (fun he => hj (he ▸ List.mem_cons_self i l2))

theorem fold_finStep_idem (l : List Nat) :
    ∀ (b : Bool) (q : PartiallySignedTransaction), l.Nodup →
      List.foldl finStep (b, (List.foldl finStep (b, q) l).2) l =
        List.foldl finStep (b, q) l := by
  induction l with
  | nil => intro b q _; rfl
  | cons i l2 ih =>
      intro b q hnd
      have hnotmem : i ∉ l2 := (List.nodup_cons.mp hnd).1
      have hnd2 : l2.Nodup := (List.nodup_cons.mp hnd).2
      rw [List.foldl_cons, List.foldl_cons]
      set y := signOnInput dummyProduce (q.tx.vin.getD i default)
        (q.inputs.getD i default) true with hy
      have hP1 : finStep (b, q) i =
          (b && y.1, { q with inputs := q.inputs.set i y.2.1 }) := rfl
      rw [hP1]
      set q1 : PartiallySignedTransaction :=
        { q with inputs := q.inputs.set i y.2.1 } with hq1
      set A := List.foldl finStep (b && y.1, q1) l2 with hA
      have htx : A.2.tx = q.tx := by
        rw [hA]
        exact fold_finStep_tx l2 _
      have hlen : A.2.inputs.length = q.inputs.length := by
        rw [hA]
        have h1 := fold_finStep_len l2 (b && y.1, q1)
        rw [h1, hq1]
        exact List.length_set q.inputs i y.2.1
      have hun : A.2.inputs.getD i default =
          (q.inputs.set i y.2.1).getD i default := by
        rw [hA]
        exact fold_finStep_untouched l2 _ i hnotmem
      have hyQ : signOnInput dummyProduce (A.2.tx.vin.getD i default)
          (A.2.inputs.getD i default) true = y := by
        rw [htx]
        by_cases hlt : i < q.inputs.length
        · rw [hun, getD_set_self_lt _ _ _ _ hlt, hy]
          exact signOnInput_idem (q.tx.vin.getD i default)
            (q.inputs.getD i default)
        · rw [hun, set_past_length q.inputs i y.2.1 (Nat.le_of_not_lt hlt)]
      have hstate : A.2.inputs.set i y.2.1 = A.2.inputs := by
        by_cases hlt : i < q.inputs.length
        · have hv : A.2.inputs.getD i default = y.2.1 := by
            rw [hun, getD_set_self_lt _ _ _ _ hlt]
          conv_lhs => rw [← hv]
          exact set_getD_self _ _ _
        · apply set_past_length
          rw [hlen]
          exact Nat.le_of_not_lt hlt
      have hsign : SignPSKTInput dummyProduce A.2 i true =
          (y.1, { A.2 with inputs := A.2.inputs.set i y.2.1 }, y.2.2) := by
        unfold SignPSKTInput
        rw [hyQ]
      have hstep : finStep (b, A.2) i = (b && y.1, A.2) := by
        show (b && (SignPSKTInput dummyProduce A.2 i true).1,
          (SignPSKTInput dummyProduce A.2 i true).2.1) = (b && y.1, A.2)
        rw [hsign, hstate]
      rw [hstep, hA]
      exact ih (b && y.1) q1 hnd2

/-- C4: `FinalizePSKT` is idempotent: rerunning it on the PSKT it produced
returns the same completeness flag and the same PSKT, because each
`SignPSKTInput` pass writes back a per-input fixed point of the finalizing
body. -/
theorem C4_finalize_idempotent (p : PartiallySignedTransaction) :
    FinalizePSKT (FinalizePSKT p).2 = FinalizePSKT p := by
  unfold FinalizePSKT
  have htx : (List.foldl finStep (true, p)
      (List.range p.tx.vin.length)).2.tx = p.tx :=
    fold_finStep_tx _ _
  rw [htx]
  exact fold_finStep_idem (List.range p.tx.vin.length) true p
    (List.nodup_range p.tx.vin.length)

theorem analyze_loop_entries (l : List Nat) :
    ∀ (st st' : AnalyzeLoopState),
      analyzeInputsLoop l st = Except.ok st' →
      ∀ ia ∈ st'.inputsAnalyses, ia ∈ st.inputsAnalyses ∨
        (ia.next ≠ PSKTRole.CREATOR ∧
          (ia.has_utxo = true → ia.is_final = false →
            ia.next ≠ PSKTRole.FINALIZER →
            (ia.next = PSKTRole.SIGNER ↔ OnlySigsMissing ia))) := by
  induction l with
  | nil =>
      intro st st' h ia hia
      cases h
      exact Or.inl hia
  | cons i rest ih =>
      intro st st' h ia hia
      unfold analyzeInputsLoop at h
      rcases hu : st.psktx.GetInputUTXO i with _ | utxo
      · rw [hu] at h
        dsimp only at h
        split at h
        · cases h
        · rcases ih _ _ h ia hia with hmem | hP
          · rcases List.mem_append.mp hmem with h1 | h2
            · exact Or.inl h1
            · rw [List.mem_singleton.mp h2]
              exact Or.inr (by decide)
          · exact Or.inr hP
      · rw [hu] at h
        dsimp only at h
        split at h
        · cases h
        · split at h
          · cases h
          · split at h
            · split at h
              · -- incomplete signing attempt: SIGNER / UPDATER entry
                rcases ih _ _ h ia hia with hmem | hP
                · rcases List.mem_append.mp hmem with h1 | h2
                  · exact Or.inl h1
                  · rw [List.mem_singleton.mp h2]
                    refine Or.inr ⟨?_, ?_⟩
                    · dsimp only
                      split
                      · decide
                      · decide
                    · intro _ _ _
                      constructor
                      · intro hs
                        dsimp only at hs ⊢
                        split at hs
                        · rename_i hcond
                          obtain ⟨c1, c2, c3, c4⟩ := hcond
                          exact ⟨c1, c2, c3, Bool.eq_false_iff.mpr c4⟩
                        · cases hs
                      · intro hOnly
                        obtain ⟨c1, c2, c3, c4⟩ := hOnly
                        dsimp only at c1 c2 c3 c4 ⊢
                        rw [if_pos ⟨c1, c2, c3, by simp [c4]⟩]
                · exact Or.inr hP
              · -- the finalizing run succeeded: FINALIZER entry
                rcases ih _ _ h ia hia with hmem | hP
                · rcases List.mem_append.mp hmem with h1 | h2
                  · exact Or.inl h1
                  · rw [List.mem_singleton.mp h2]
                    exact Or.inr (by decide)
                · exact Or.inr hP
            · split at h
              · -- already signed: final entry
                rcases ih _ _ h ia hia with hmem | hP
                · rcases List.mem_append.mp hmem with h1 | h2
                  · exact Or.inl h1
                  · rw [List.mem_singleton.mp h2]
                    exact Or.inr (by decide)
                · exact Or.inr hP
              · -- null resolved UTXO: bare has-utxo entry
                rcases ih _ _ h ia hia with hmem | hP
                · rcases List.mem_append.mp hmem with h1 | h2
                  · exact Or.inl h1
                  · rw [List.mem_singleton.mp h2]
                    exact Or.inr (by decide)
                · exact Or.inr hP

theorem analyze_loop_error (l : List Nat) :
    ∀ (st : AnalyzeLoopState) (res : PSKTAnalysis),
      analyzeInputsLoop l st = Except.error res → res.error ≠ none := by
  induction l with
  | nil => intro st res h; cases h
  | cons i rest ih =>
      intro st res h
      unfold analyzeInputsLoop at h
      rcases hu : st.psktx.GetInputUTXO i with _ | utxo
      · rw [hu] at h
        dsimp only at h
        split at h
        · cases h
          simp [PSKTAnalysis.SetInvalid]
        · exact ih _ _ h
      · rw [hu] at h
        dsimp only at h
        split at h
        · cases h
          simp [PSKTAnalysis.SetInvalid]
        · split at h
          · cases h
            simp [PSKTAnalysis.SetInvalid]
          · split at h
            · split at h
              · exact ih _ _ h
              · exact ih _ _ h
            · split at h
              · exact ih _ _ h
              · exact ih _ _ h

theorem analyze_ok_shape (est : CMutableTransaction → Nat)
    (p : PartiallySignedTransaction)
    (herr : (AnalyzePSKT est p).error = none) :
    ∃ st, analyzeInputsLoop (List.range p.tx.vin.length)
        { psktx := p, in_amt := 0, calc_fee := true, inputsAnalyses := [] } =
        Except.ok st ∧
      (AnalyzePSKT est p).inputs = st.inputsAnalyses ∧
      (AnalyzePSKT est p).next = st.inputsAnalyses.foldl
        (fun acc ia => roleMin acc ia.next) PSKTRole.EXTRACTOR := by
  unfold AnalyzePSKT at herr ⊢
  rcases hm : analyzeInputsLoop (List.range p.tx.vin.length)
      { psktx := p, in_amt := 0, calc_fee := true, inputsAnalyses := [] } with res | st
  · rw [hm] at herr
    dsimp only at herr
    exact absurd herr (analyze_loop_error _ _ _ hm)
  · rw [hm] at herr
    dsimp only at herr ⊢
    refine ⟨st, rfl, ?_⟩
    split at herr
    · split at herr
      · simp [PSKTAnalysis.SetInvalid] at herr
      · rename_i hcf hmr
        rw [if_pos hcf, if_neg hmr]
        rcases analyzeEstimateLoop (List.range p.tx.vin.length) st.psktx p.tx
          with _ | mtx
        · exact ⟨rfl, rfl⟩
        · exact ⟨rfl, rfl⟩
    · rename_i hcf
      rw [if_neg hcf]
      exact ⟨rfl, rfl⟩

theorem roleMin_le_left (a b : PSKTRole) : (roleMin a b).toNat ≤ a.toNat := by
  unfold roleMin
  split
  · exact Nat.le_of_lt (by assumption)
  · exact Nat.le_refl _

theorem roleMin_le_right (a b : PSKTRole) : (roleMin a b).toNat ≤ b.toNat := by
  unfold roleMin
  split
  · exact Nat.le_refl _
  · exact Nat.le_of_not_lt (by assumption)

theorem roleMin_cases (a b : PSKTRole) : roleMin a b = a ∨ roleMin a b = b := by
  unfold roleMin
  split
  · exact Or.inr rfl
  · exact Or.inl rfl

theorem foldl_roleMin_le (l : List PSKTInputAnalysis) :
    ∀ (a : PSKTRole),
      (l.foldl (fun acc ia => roleMin acc ia.next) a).toNat ≤ a.toNat ∧
      ∀ ia ∈ l, (l.foldl (fun acc ia => roleMin acc ia.next) a).toNat ≤
        ia.next.toNat := by
  induction l with
  | nil =>
      intro a
      exact ⟨Nat.le_refl _, fun ia h => absurd h (List.not_mem_nil ia)⟩
  | cons x xs ih =>
      intro a
      rw [List.foldl_cons]
      refine ⟨?_, ?_⟩
      · exact Nat.le_trans (ih (roleMin a x.next)).1 (roleMin_le_left a x.next)
      · intro ia hmem
        rcases List.mem_cons.mp hmem with he | hm
        · rw [he]
          exact Nat.le_trans (ih (roleMin a x.next)).1 (roleMin_le_right a x.next)
        · exact (ih (roleMin a x.next)).2 ia hm

theorem foldl_roleMin_mem (l : List PSKTInputAnalysis) :
    ∀ a : PSKTRole, l.foldl (fun acc ia => roleMin acc ia.next) a = a ∨
      ∃ ia ∈ l, l.foldl (fun acc ia => roleMin acc ia.next) a = ia.next := by
  induction l with
  | nil => intro a; exact Or.inl rfl
  | cons x xs ih =>
      intro a
      rw [List.foldl_cons]
      rcases ih (roleMin a x.next) with h | ⟨ia, hmem, he⟩
      · rw [h]
        rcases roleMin_cases a x.next with h2 | h2
        · exact Or.inl h2
        · exact Or.inr ⟨x, List.mem_cons_self x xs, h2⟩
      · exact Or.inr ⟨ia, List.mem_cons_of_mem x hmem, he⟩

/-- C5: on an analysis that reported no invalidity, every per-input record
that has a UTXO, is not final and was not finalized gets next role `SIGNER`
exactly when only signatures are missing; the PSKT-wide next role is the
fold of `std::min` over the per-input roles — a true minimum — and the
asserted `result.next > PSKTRole::CREATOR` always holds. -/
theorem C5_analyzer_roles (est : CMutableTransaction → Nat)
    (p : PartiallySignedTransaction)
    (herr : (AnalyzePSKT est p).error = none) :
    (∀ ia ∈ (AnalyzePSKT est p).inputs,
      ia.has_utxo = true → ia.is_final = false → ia.next ≠ PSKTRole.FINALIZER →
        (ia.next = PSKTRole.SIGNER ↔ OnlySigsMissing ia)) ∧
    ((AnalyzePSKT est p).next = (AnalyzePSKT est p).inputs.foldl
      (fun acc ia => roleMin acc ia.next) PSKTRole.EXTRACTOR) ∧
    (∀ ia ∈ (AnalyzePSKT est p).inputs,
      ((AnalyzePSKT est p).next).toNat ≤ ia.next.toNat) ∧
    PSKTRole.CREATOR.toNat < ((AnalyzePSKT est p).next).toNat := by
  obtain ⟨st, hok, hinp, hnext⟩ := analyze_ok_shape est p herr
  have hP : ∀ ia ∈ st.inputsAnalyses, ia.next ≠ PSKTRole.CREATOR ∧
      (ia.has_utxo = true → ia.is_final = false →
        ia.next ≠ PSKTRole.FINALIZER →
        (ia.next = PSKTRole.SIGNER ↔ OnlySigsMissing ia)) := by
    intro ia hia
    rcases analyze_loop_entries _ _ _ hok ia hia with hm | hgood
    · exact absurd hm (List.not_mem_nil ia)
    · exact hgood
  refine ⟨?_, ?_, ?_, ?_⟩
  · intro ia hia
    rw [hinp] at hia
    exact (hP ia hia).2
  · rw [hnext, hinp]
  · intro ia hia
    rw [hinp] at hia
    rw [hnext]
    exact (foldl_roleMin_le st.inputsAnalyses PSKTRole.EXTRACTOR).2 ia hia
  · rw [hnext]
    rcases foldl_roleMin_mem st.inputsAnalyses PSKTRole.EXTRACTOR with h | ⟨ia, hm, he⟩
    · rw [h]
      decide
    · rw [he]
      have hne := (hP ia hm).1
      rcases hx : ia.next with _ | _ | _ | _ | _
      · exact absurd hx hne
      · decide
      · decide
      · decide
      · decide

theorem C5_analyzer_roles_witness :
    ((AnalyzePSKT (fun _ => 0) psktWitMissing).error = none) ∧
    ((∀ ia ∈ (AnalyzePSKT (fun _ => 0) psktWitMissing).inputs,
      ia.has_utxo = true → ia.is_final = false → ia.next ≠ PSKTRole.FINALIZER →
        (ia.next = PSKTRole.SIGNER ↔ OnlySigsMissing ia)) ∧
    ((AnalyzePSKT (fun _ => 0) psktWitMissing).next =
      (AnalyzePSKT (fun _ => 0) psktWitMissing).inputs.foldl
      (fun acc ia => roleMin acc ia.next) PSKTRole.EXTRACTOR) ∧
    (∀ ia ∈ (AnalyzePSKT (fun _ => 0) psktWitMissing).inputs,
      ((AnalyzePSKT (fun _ => 0) psktWitMissing).next).toNat ≤ ia.next.toNat) ∧
    PSKTRole.CREATOR.toNat <
      ((AnalyzePSKT (fun _ => 0) psktWitMissing).next).toNat) :=
  ⟨by decide, C5_analyzer_roles (fun _ => 0) psktWitMissing (by decide)⟩

theorem getInputUTXO_sign_other (q : PartiallySignedTransaction) (i j : Nat)
    (hij : i ≠ j) :
    ((SignPSKTInput dummyProduce q i true).2.1).GetInputUTXO j =
      q.GetInputUTXO j := by
  unfold SignPSKTInput PartiallySignedTransaction.GetInputUTXO
  dsimp only
  rw [getD_set_ne q.inputs i j _ default hij]

theorem analyze_step_ok (i : Nat) (rest : List Nat) (st : AnalyzeLoopState)
    (u : CTxOut)
    (hui : st.psktx.GetInputUTXO i = some u)
    (hm1 : MoneyRange u.nValue) (hm2 : MoneyRange (st.in_amt + u.nValue))
    (hnos : ¬(u.IsNull = false ∧ scriptIsUnspendable u.scriptPubKey = true)) :
    ∃ st2, analyzeInputsLoop (i :: rest) st = analyzeInputsLoop rest st2 ∧
      (st2.psktx = st.psktx ∨
        st2.psktx = (SignPSKTInput dummyProduce st.psktx i true).2.1) ∧
      st2.in_amt = st.in_amt + u.nValue ∧
      st2.calc_fee = st.calc_fee := by
  simp only [analyzeInputsLoop]
  rw [hui]
  dsimp only
  rw [if_neg (not_not_intro ⟨hm1, hm2⟩)]
  rw [if_neg (fun hc => hnos ⟨Bool.eq_false_iff.mpr hc.1, hc.2⟩)]
  split
  · split
    · refine ⟨_, rfl, ?_, ?_, ?_⟩
      · exact Or.inr rfl
      · rfl
      · rfl
    · refine ⟨_, rfl, ?_, ?_, ?_⟩
      · exact Or.inr rfl
      · rfl
      · rfl
  · split
    · refine ⟨_, rfl, ?_, ?_, ?_⟩
      · exact Or.inl rfl
      · rfl
      · rfl
    · refine ⟨_, rfl, ?_, ?_, ?_⟩
      · exact Or.inl rfl
      · rfl
      · rfl

theorem analyze_loop_sum (l : List Nat) :
    ∀ (st : AnalyzeLoopState) (U : Nat → CTxOut),
      l.Nodup →
      (∀ i ∈ l, st.psktx.GetInputUTXO i = some (U i)) →
      (∀ i ∈ l, 0 ≤ (U i).nValue) →
      (∀ i ∈ l, ¬((U i).IsNull = false ∧
        scriptIsUnspendable (U i).scriptPubKey = true)) →
      0 ≤ st.in_amt →
      st.in_amt + (l.map (fun i => (U i).nValue)).sum ≤ MAX_MONEY →
      ∃ st', analyzeInputsLoop l st = Except.ok st' ∧
        st'.in_amt = st.in_amt + (l.map (fun i => (U i).nValue)).sum ∧
        st'.calc_fee = st.calc_fee := by
  induction l with
  | nil =>
      intro st U _ _ _ _ _ _
      exact ⟨st, rfl, by simp, rfl⟩
  | cons i rest ih =>
      intro st U hnd hres hpos hnos h0 hsum
      have hmem : i ∈ i :: rest := List.mem_cons_self i rest
      have hndr : rest.Nodup := (List.nodup_cons.mp hnd).2
      have hni : i ∉ rest := (List.nodup_cons.mp hnd).1
      have hui := hres i hmem
      have hpi : 0 ≤ (U i).nValue := hpos i hmem
      have hrest0 : 0 ≤ (rest.map (fun k => (U k).nValue)).sum := by
        apply List.sum_nonneg
        intro x hx
        obtain ⟨j, hj, hxe⟩ := List.mem_map.mp hx
        exact hxe ▸ hpos j (List.mem_cons_of_mem i hj)
      have hsum' : st.in_amt + ((U i).nValue +
          (rest.map (fun k => (U k).nValue)).sum) ≤ MAX_MONEY := by
        rw [List.map_cons, List.sum_cons] at hsum
        exact hsum
      have hm1 : MoneyRange (U i).nValue := ⟨hpi, by linarith⟩
      have hm2 : MoneyRange (st.in_amt + (U i).nValue) :=
        ⟨by linarith, by linarith⟩
      obtain ⟨st2, hstep, hpx, hamt2, hcf2⟩ :=
        analyze_step_ok i rest st (U i) hui hm1 hm2 (hnos i hmem)
      have hres2 : ∀ j ∈ rest, st2.psktx.GetInputUTXO j = some (U j) := by
        intro j hj
        rcases hpx with hpx | hpx
        · rw [hpx]
          exact hres j (List.mem_cons_of_mem i hj)
        · rw [hpx, getInputUTXO_sign_other st.psktx i j
            (fun he => hni (by rw [he]; exact hj))]
          exact hres j (List.mem_cons_of_mem i hj)
      obtain ⟨st', hok, hamt, hcf⟩ := ih st2 U hndr hres2
        (fun j hj => hpos j (List.mem_cons_of_mem i hj))
        (fun j hj => hnos j (List.mem_cons_of_mem i hj))
        (by rw [hamt2]; linarith)
        (by rw [hamt2]; linarith)
      refine ⟨st', by rw [hstep]; exact hok, ?_, by rw [hcf, hcf2]⟩
      rw [hamt, hamt2, List.map_cons, List.sum_cons]
      ring

theorem out_fold_sum (l : List CTxOut) :
    ∀ a : Int, 0 ≤ a → (∀ o ∈ l, 0 ≤ o.nValue) →
      a + (l.map (fun o => o.nValue)).sum ≤ MAX_MONEY →
      l.foldl (fun a b => if ¬(MoneyRange a ∧ MoneyRange b.nValue ∧
        MoneyRange (a + b.nValue)) then (-1 : Int) else a + b.nValue) a =
        a + (l.map (fun o => o.nValue)).sum := by
  induction l with
  | nil =>
      intro a _ _ _
      simp
  | cons o rest ih =>
      intro a ha hpos hsum
      rw [List.foldl_cons]
      have hopos : 0 ≤ o.nValue := hpos o (List.mem_cons_self o rest)
      have hrest0 : 0 ≤ (rest.map (fun o => o.nValue)).sum := by
        apply List.sum_nonneg
        intro x hx
        obtain ⟨u, hu, hxe⟩ := List.mem_map.mp hx
        exact hxe ▸ hpos u (List.mem_cons_of_mem o hu)
      have hsum' : a + (o.nValue + (rest.map (fun o => o.nValue)).sum) ≤
          MAX_MONEY := by
        rw [List.map_cons, List.sum_cons] at hsum
        exact hsum
      rw [if_neg (not_not_intro ⟨⟨ha, by linarith⟩, ⟨hopos, by linarith⟩,
        ⟨by linarith, by linarith⟩⟩)]
      rw [ih (a + o.nValue) (by linarith)
        (fun x hx => hpos x (List.mem_cons_of_mem o hx)) (by linarith)]
      rw [List.map_cons, List.sum_cons]
      ring

/-- C6 counterexample: a PSKT satisfying every hypothesis of the claim —
its single input's UTXO resolves, the spent value and its running sum are
in the money range, and there are no outputs — whose analysis reports no
fee at all, because the resolved UTXO's OP_RETURN script makes the
analyzer return `SetInvalid` before the fee computation. -/
theorem C6_counterexample :
    (∀ i < psktUnspendable.tx.vin.length,
      psktUnspendable.GetInputUTXO i =
        some { nValue := 5, scriptPubKey := [106] }) ∧
    MoneyRange (5 : Int) ∧ MoneyRange ((0 : Int) + 5) ∧
    psktUnspendable.tx.vout = [] ∧
    (AnalyzePSKT (fun _ => 0) psktUnspendable).fee ≠ some (5 - 0) := by
  decide

/-- C6 amended: when every input's UTXO resolves, no resolved non-null UTXO
carries a provably unspendable script, all spent values are nonnegative with
total at most MAX_MONEY, and all output values are nonnegative with total at
most MAX_MONEY, the analyzer reports fee = Σ spent UTXO values − Σ output
values. -/
theorem C6_fee_consistency (est : CMutableTransaction → Nat)
    (p : PartiallySignedTransaction) (U : Nat → CTxOut)
    (hres : ∀ i ∈ List.range p.tx.vin.length, p.GetInputUTXO i = some (U i))
    (hpos : ∀ i ∈ List.range p.tx.vin.length, 0 ≤ (U i).nValue)
    (hnos : ∀ i ∈ List.range p.tx.vin.length,
      ¬((U i).IsNull = false ∧ scriptIsUnspendable (U i).scriptPubKey = true))
    (hinsum : ((List.range p.tx.vin.length).map
      (fun i => (U i).nValue)).sum ≤ MAX_MONEY)
    (houtpos : ∀ o ∈ p.tx.vout, 0 ≤ o.nValue)
    (houtsum : (p.tx.vout.map (fun o => o.nValue)).sum ≤ MAX_MONEY) :
    (AnalyzePSKT est p).fee =
      some (((List.range p.tx.vin.length).map (fun i => (U i).nValue)).sum -
        (p.tx.vout.map (fun o => o.nValue)).sum) := by
  have hout0 : 0 ≤ (p.tx.vout.map (fun o => o.nValue)).sum := by
    apply List.sum_nonneg
    intro x hx
    obtain ⟨u, hu, hxe⟩ := List.mem_map.mp hx
    exact hxe ▸ houtpos u hu
  obtain ⟨st', hok, hamt, hcf⟩ := analyze_loop_sum
    (List.range p.tx.vin.length)
    { psktx := p, in_amt := 0, calc_fee := true, inputsAnalyses := [] }
    U (List.nodup_range _) hres hpos hnos (le_refl 0)
    (by simpa using hinsum)
  have hout := out_fold_sum p.tx.vout 0 (le_refl 0) houtpos
    (by simpa using houtsum)
  unfold AnalyzePSKT
  rw [hok]
  dsimp only
  have hcft : st'.calc_fee = true := hcf
  rw [if_pos hcft, hout]
  have hmr : MoneyRange ((0 : Int) + (p.tx.vout.map (fun o => o.nValue)).sum) :=
    ⟨by linarith, by simpa using houtsum⟩
  rw [if_neg (not_not_intro hmr)]
  rcases analyzeEstimateLoop (List.range p.tx.vin.length) st'.psktx p.tx
    with _ | mtx
  · dsimp only
    rw [hamt]
    norm_num
  · dsimp only
    rw [hamt]
    norm_num

theorem C6_fee_consistency_witness :
    ((∀ i ∈ List.range psktWitMissing.tx.vin.length,
      psktWitMissing.GetInputUTXO i =
        some { nValue := 5, scriptPubKey := [0, 7] }) ∧
     (AnalyzePSKT (fun _ => 0) psktWitMissing).fee = some 5) :=
  ⟨by decide, by
    have h := C6_fee_consistency (fun _ => 0) psktWitMissing
      (fun _ => { nValue := 5, scriptPubKey := [0, 7] })
      (by decide) (by decide) (by decide) (by decide) (by decide) (by decide)
    simpa using h⟩

/-! ## Claim C1: canonical commutativity of Merge — support lemmas -/

theorem fillOpt_comm {α : Type} (x y : Option α) (h : OptCompat x y) :
    fillOpt x y = fillOpt y x := by
  rcases x with _ | xv <;> rcases y with _ | yv <;> simp [fillOpt]
  exact h xv yv rfl rfl

theorem fillList_comm {α : Type} (x y : List α) (h : ListCompat x y) :
    fillList x y = fillList y x := by
  by_cases hx : x = [] <;> by_cases hy : y = []
  · rw [hx, hy]
  · subst hx
    simp [fillList, List.isEmpty_iff, hy]
  · subst hy
    simp [fillList, List.isEmpty_iff, hx]
  · have he := h hx hy
    rw [he]

theorem fillNat_comm (x y : Nat) (h : NatCompat x y) :
    fillNat x y = fillNat y x := by
  by_cases hx : x = 0 <;> by_cases hy : y = 0
  · rw [hx, hy]
  · subst hx
    simp [fillNat, hy]
  · subst hy
    simp [fillNat, hx]
  · have he := h hx hy
    rw [he]

theorem fillTxOut_canon (x y : CTxOut) (h : TxOutCompat x y) :
    TxOutCanonEq (fillTxOut x y) (fillTxOut y x) := by
  by_cases hx : x.IsNull = true <;> by_cases hy : y.IsNull = true
  · refine Or.inl ⟨?_, ?_⟩ <;> simp [fillTxOut, hx, hy]
  · refine Or.inr ?_
    simp [fillTxOut, hx, hy]
  · refine Or.inr ?_
    simp [fillTxOut, hx, hy]
  · refine Or.inr ?_
    have he := h hx hy
    rw [he]

theorem mapInsertAll_canon {α β : Type} [DecidableEq α] (m n : List (α × β))
    (h : MapCompat m n) : MapCanonEq (mapInsertAll m n) (mapInsertAll n m) := by
  intro k
  rw [alookup_mapInsertAll, alookup_mapInsertAll]
  rcases hm : alookup k m with _ | v₁ <;> rcases hn : alookup k n with _ | v₂ <;>
    simp [Option.or]
  exact h (k, v₁) (alookup_mem hm) (k, v₂) (alookup_mem hn) rfl

theorem mem_setInsert {α : Type} [DecidableEq α] (s : List α) (a x : α) :
    x ∈ setInsert s a ↔ x ∈ s ∨ x = a := by
  unfold setInsert
  split
  · rename_i hmem
    constructor
    · exact Or.inl
    · intro hx
      rcases hx with hx | hx
      · exact hx
      · rw [hx]
        exact hmem
  · simp

theorem mem_setUnion {α : Type} [DecidableEq α] (t : List α) :
    ∀ (s : List α) (x : α), x ∈ setUnion s t ↔ x ∈ s ∨ x ∈ t := by
  induction t with
  | nil => intro s x; simp [setUnion]
  | cons a rest ih =>
      intro s x
      show x ∈ setUnion (setInsert s a) rest ↔ _
      rw [ih (setInsert s a) x, mem_setInsert]
      constructor
      · rintro ((hx | hx) | hx)
        · exact Or.inl hx
        · exact Or.inr (by rw [hx]; exact List.mem_cons_self a rest)
        · exact Or.inr (List.mem_cons_of_mem a hx)
      · rintro (hx | hx)
        · exact Or.inl (Or.inl hx)
        · rcases List.mem_cons.mp hx with hx | hx
          · exact Or.inl (Or.inr hx)
          · exact Or.inr hx

theorem alookup_updateVal_self {α β : Type} [DecidableEq α]
    (m : List (α × β)) (k : α) (f : β → β) :
    alookup k (updateVal m k f) = (alookup k m).map f := by
  induction m with
  | nil => rfl
  | cons p ps ih =>
      unfold updateVal at ih ⊢
      by_cases hp : p.1 = k
      · simp [alookup, hp]
      · simp [alookup, hp, ih]

theorem alookup_updateVal_ne {α β : Type} [DecidableEq α]
    (m : List (α × β)) (k j : α) (f : β → β) (h : j ≠ k) :
    alookup k (updateVal m j f) = alookup k m := by
  induction m with
  | nil => rfl
  | cons p ps ih =>
      unfold updateVal at ih ⊢
      by_cases hp : p.1 = j
      · have : ¬p.1 = k := by rw [hp]; exact h
        simp [alookup, hp, this, ih, h, Ne.symm h]
      · by_cases hk : p.1 = k
        · simp [alookup, hp, hk, h, Ne.symm h]
        · simp [alookup, hp, hk, ih, h, Ne.symm h]

theorem alookup_eq_none_of_not_mem {α β : Type} [DecidableEq α]
    {m : List (α × β)} {k : α} (h : k ∉ m.map Prod.fst) : alookup k m = none := by
  rcases hv : alookup k m with _ | v
  · rfl
  · exact absurd (List.mem_map.mpr ⟨(k, v), alookup_mem hv, rfl⟩) h

theorem xpubsMerge_lookup (l : List (List Nat × List Nat)) :
    ∀ (m : List (List Nat × List Nat)), (l.map Prod.fst).Nodup → ∀ k,
      alookup k (xpubsMerge m l) =
        match alookup k m, alookup k l with
        | none, none => none
        | some s, none => some s
        | none, some t => some t
        | some s, some t => some (setUnion s t) := by
  induction l with
  | nil =>
      intro m _ k
      show alookup k m = _
      rcases alookup k m with _ | s <;> rfl
  | cons p rest ih =>
      intro m hnd k
      have hnr : (rest.map Prod.fst).Nodup := by
        rw [List.map_cons] at hnd
        exact (List.nodup_cons.mp hnd).2
      have hpn : p.1 ∉ rest.map Prod.fst := by
        rw [List.map_cons] at hnd
        exact (List.nodup_cons.mp hnd).1
      show alookup k (xpubsMerge (match alookup p.1 m with
        | none => m ++ [p]
        | some s => updateVal m p.1 (fun _ => setUnion s p.2)) rest) = _
      rw [ih _ hnr k]
      by_cases hk : p.1 = k
      · subst hk
        have hrest : alookup p.1 rest = none := alookup_eq_none_of_not_mem hpn
        rcases hm : alookup p.1 m with _ | s
        · rw [hrest, alookup_append, hm]
          simp [alookup]
        · rw [hrest, alookup_updateVal_self, hm]
          simp [alookup]
      · have hcons : alookup k (p :: rest) = alookup k rest := by
          simp [alookup, hk]
        rw [hcons]
        rcases hm : alookup p.1 m with _ | s
        · have hsing : alookup k [p] = none := by simp [alookup, hk]
          rw [alookup_append, hsing, Option.or_none]
        · rw [alookup_updateVal_ne m k p.1 _ hk]

theorem xpubsMerge_canon (m n : List (List Nat × List Nat))
    (hm : (m.map Prod.fst).Nodup) (hn : (n.map Prod.fst).Nodup) :
    SetMapCanonEq (xpubsMerge m n) (xpubsMerge n m) := by
  intro k x
  rw [xpubsMerge_lookup n m hn k, xpubsMerge_lookup m n hm k]
  rcases alookup k m with _ | s <;> rcases alookup k n with _ | t <;> dsimp only
  · exact Iff.rfl
  · exact Iff.rfl
  · exact Iff.rfl
  · show x ∈ setUnion s t ↔ x ∈ setUnion t s
    rw [mem_setUnion, mem_setUnion]
    exact or_comm

theorem inputMerge_canon (x y : PSKTInput) (h : PSKTInput.Compat x y) :
    PSKTInput.CanonEq (x.Merge y) (y.Merge x) := by
  obtain ⟨h1, h2, h3, h4, h5, h6, h7, h8, h9, h10, h11, h12, h13, h14, h15, h16,
    h17, h18, h19⟩ := h
  exact ⟨fillOpt_comm _ _ h1, fillTxOut_canon _ _ h2, mapInsertAll_canon _ _ h3,
    mapInsertAll_canon _ _ h4, mapInsertAll_canon _ _ h5, mapInsertAll_canon _ _ h6,
    mapInsertAll_canon _ _ h7, mapInsertAll_canon _ _ h8, mapInsertAll_canon _ _ h9,
    mapInsertAll_canon _ _ h10, mapInsertAll_canon _ _ h11,
    mapInsertAll_canon _ _ h12, fillList_comm _ _ h13, fillList_comm _ _ h14,
    fillList_comm _ _ h15, fillList_comm _ _ h16, fillList_comm _ _ h17,
    fillNat_comm _ _ h18, fillNat_comm _ _ h19⟩

theorem outputMerge_canon (x y : PSKTOutput) (h : PSKTOutput.Compat x y) :
    PSKTOutput.CanonEq (x.Merge y) (y.Merge x) := by
  obtain ⟨h1, h2, h3, h4, h5, h6, h7⟩ := h
  exact ⟨mapInsertAll_canon _ _ h1, mapInsertAll_canon _ _ h2,
    mapInsertAll_canon _ _ h3, fillList_comm _ _ h4, fillList_comm _ _ h5,
    fillNat_comm _ _ h6, fillList_comm _ _ h7⟩

theorem inputCanonEq_refl (x : PSKTInput) : PSKTInput.CanonEq x x :=
  ⟨rfl, Or.inr rfl, fun _ => rfl, fun _ => rfl, fun _ => rfl, fun _ => rfl,
   fun _ => rfl, fun _ => rfl, fun _ => rfl, fun _ => rfl, fun _ => rfl,
   fun _ => rfl, rfl, rfl, rfl, rfl, rfl, rfl, rfl⟩

theorem outputCanonEq_refl (x : PSKTOutput) : PSKTOutput.CanonEq x x :=
  ⟨fun _ => rfl, fun _ => rfl, fun _ => rfl, rfl, rfl, rfl, rfl⟩

theorem getD_mapIdx_lt {α β : Type} (l : List α) (f : Nat → α → β) (i : Nat)
    (d : α) (db : β) (h : i < l.length) :
    (l.mapIdx f).getD i db = f i (l.getD i d) := by
  rw [getD_mapIdx, List.getElem?_eq_getElem h, List.getD_eq_getElem?_getD,
    List.getElem?_eq_getElem h]
  rfl

theorem getD_mapIdx_ge {α β : Type} (l : List α) (f : Nat → α → β) (i : Nat)
    (db : β) (h : l.length ≤ i) :
    (l.mapIdx f).getD i db = db := by
  rw [getD_mapIdx, List.getElem?_eq_none h]
  rfl

/-- C1 amended: for well-formed PSKTs over the same unsigned transaction
whose shared fields carry no conflicting values (compatibility), the two
merge orders agree on every set-valued and first-writer-wins field
collapsed to canonical unordered form. -/
theorem C1_merge_canon_commutative (a b : PartiallySignedTransaction)
    (hwa : WellFormed a) (hwb : WellFormed b) (htx : a.tx = b.tx)
    (hcompat : a.Compat b) :
    ∀ c₁ c₂, a.Merge b = some c₁ → b.Merge a = some c₂ →
      PartiallySignedTransaction.CanonEq c₁ c₂ := by
  intro c₁ c₂ h1 h2
  obtain ⟨hci, hco, hcx, hcu, hna, hnb⟩ := hcompat
  have hlin : a.inputs.length = b.inputs.length := by
    rw [hwa.1, hwb.1, htx]
  have hlout : a.outputs.length = b.outputs.length := by
    rw [hwa.2.1, hwb.2.1, htx]
  have hc1 : c₁ = { a with
      inputs := a.inputs.mapIdx (fun i ai => ai.Merge (b.inputs.getD i default))
      outputs := a.outputs.mapIdx (fun i ao => ao.Merge (b.outputs.getD i default))
      m_xpubs := xpubsMerge a.m_xpubs b.m_xpubs
      unknown := mapInsertAll a.unknown b.unknown } := by
    unfold PartiallySignedTransaction.Merge at h1
    split at h1
    · cases h1
    · exact (Option.some.inj h1).symm
  have hc2 : c₂ = { b with
      inputs := b.inputs.mapIdx (fun i bi => bi.Merge (a.inputs.getD i default))
      outputs := b.outputs.mapIdx (fun i bo => bo.Merge (a.outputs.getD i default))
      m_xpubs := xpubsMerge b.m_xpubs a.m_xpubs
      unknown := mapInsertAll b.unknown a.unknown } := by
    unfold PartiallySignedTransaction.Merge at h2
    split at h2
    · cases h2
    · exact (Option.some.inj h2).symm
  subst hc1
  subst hc2
  refine ⟨?_, ?_, ?_, ?_, ?_, ?_⟩
  · simp [hlin]
  · simp [hlout]
  · intro i
    rcases Nat.lt_or_ge i a.inputs.length with hi | hi
    · rw [getD_mapIdx_lt a.inputs _ i default _ hi,
        getD_mapIdx_lt b.inputs _ i default _ (hlin ▸ hi)]
      exact inputMerge_canon _ _ (hci i hi)
    · rw [getD_mapIdx_ge a.inputs _ i _ hi,
        getD_mapIdx_ge b.inputs _ i _ (hlin ▸ hi)]
      exact inputCanonEq_refl default
  · intro i
    rcases Nat.lt_or_ge i a.outputs.length with hi | hi
    · rw [getD_mapIdx_lt a.outputs _ i default _ hi,
        getD_mapIdx_lt b.outputs _ i default _ (hlout ▸ hi)]
      exact outputMerge_canon _ _ (hco i hi)
    · rw [getD_mapIdx_ge a.outputs _ i _ hi,
        getD_mapIdx_ge b.outputs _ i _ (hlout ▸ hi)]
      exact outputCanonEq_refl default
  · exact xpubsMerge_canon a.m_xpubs b.m_xpubs hna hnb
  · exact mapInsertAll_canon a.unknown b.unknown hcu

theorem C1_merge_canon_commutative_witness :
    WellFormed psktSigA ∧ WellFormed psktSigC ∧ psktSigA.tx = psktSigC.tx ∧
    psktSigA.Compat psktSigC ∧
    PartiallySignedTransaction.CanonEq
      ((psktSigA.Merge psktSigC).getD default)
      ((psktSigC.Merge psktSigA).getD default) :=
  ⟨by decide, by decide, by decide, by decide,
   C1_merge_canon_commutative psktSigA psktSigC (by decide) (by decide)
     (by decide) (by decide)
     ((psktSigA.Merge psktSigC).getD default)
     ((psktSigC.Merge psktSigA).getD default)
     (by decide) (by decide)⟩
